import Mathlib

/-!
# Tutorial analysis tasks: `DerivedBasicConsumer` and `myExampleTask`

Shallow embedding of
* `Tutorials/Skimming/derivedBasicConsumer.cxx` (`ComputeDeltaPhi`, `process`),
* `Tutorials/PWGMM/myExampleTask.cxx` (`processReco`, `processSim`).

Modelling conventions.

* Numbers in `DerivedBasicConsumer`. `ComputeDeltaPhi` does arithmetic on `Double_t`, so
  its values are IEEE-754 values (`FP`: a finite rational, an infinity or NaN) and every
  operation rounds to nearest, ties to even, in the format of the source expression
  (`binary64` for `Double_t`, `binary32` for a difference of two `float` columns).  The two
  zeros are identified: they compare equal and fill the same bin.
* Numbers in `myExampleTask`. The guards of `processReco` and `processSim` only compare
  input columns with literals and the one subtraction is only logged, so there the values
  are elements of an arbitrary linearly ordered field `α`.
* `TMath::Pi()` is the constant of the ROOT library, `3.14159265358979323846` as a
  `Double_t`, that is the rational `884279719003555 / 2 ^ 48`.
* Histograms. `histos.fill(HIST("name"), v)` appends `v` to the fill log of histogram
  `name`.  The bin contents of the booked histogram are a function of that log, so
  "filled n times with values v₁ … vₙ" is a statement about the log.
* Tables. A table is the `List` of its rows in table order; a range-`for` over a table is
  a left fold over that list.
-/

set_option autoImplicit false

/-! ## IEEE-754 values and rounding -/

/-- An IEEE-754 binary format: `mant` stored fraction bits, `emin` the exponent of the
least normal binade, and `2 ^ emax` the least magnitude that rounds to an infinity. -/
structure FloatFormat where
  mant : ℕ
  emin : ℤ
  emax : ℤ

/-- The format of `double` / `Double_t`. -/
def binary64 : FloatFormat := { mant := 52, emin := -1022, emax := 1024 }

/-- The format of `float`. -/
def binary32 : FloatFormat := { mant := 23, emin := -126, emax := 128 }

/-- Rounding of a rational to the nearest integer, ties to the even one. -/
def roundHalfEven (n : ℚ) : ℤ :=
  if n - ⌊n⌋ < 1 / 2 then ⌊n⌋
  else if 1 / 2 < n - ⌊n⌋ then ⌊n⌋ + 1
  else if ⌊n⌋ % 2 = 0 then ⌊n⌋ else ⌊n⌋ + 1

/-- The spacing of the format's grid around `x > 0`: `2 ^ (e - mant)` with `e` the binade
of `x`, not below `emin` (the subnormal range shares the spacing of the least binade). -/
def FloatFormat.ulp (fmt : FloatFormat) (x : ℚ) : ℚ :=
  2 ^ (max (Int.log 2 x) fmt.emin - fmt.mant)

/-- Round-to-nearest-even of `x ≥ 0` on the grid of the format, exponent unbounded above. -/
def FloatFormat.roundPos (fmt : FloatFormat) (x : ℚ) : ℚ :=
  fmt.ulp x * roundHalfEven (x / fmt.ulp x)

/-- Round-to-nearest-even of any rational, exponent unbounded above. -/
def FloatFormat.roundRaw (fmt : FloatFormat) (x : ℚ) : ℚ :=
  if 0 ≤ x then fmt.roundPos x else -fmt.roundPos (-x)

/-- An IEEE-754 value: a finite number, an infinity, or NaN. -/
inductive FP where
  | finite (q : ℚ)
  | posInf
  | negInf
  | nan
  deriving DecidableEq

/-- The IEEE value of the exact result `x`: rounded to nearest even, and an infinity when
the rounded magnitude reaches `2 ^ emax`. -/
def FloatFormat.round (fmt : FloatFormat) (x : ℚ) : FP :=
  if 2 ^ fmt.emax ≤ fmt.roundRaw x then FP.posInf
  else if fmt.roundRaw x ≤ -2 ^ fmt.emax then FP.negInf
  else FP.finite (fmt.roundRaw x)

namespace FP

/-- Unary minus. -/
def neg : FP → FP
  | finite q => finite (-q)
  | posInf => negInf
  | negInf => posInf
  | nan => nan

/-- Addition in format `fmt`. -/
def add (fmt : FloatFormat) : FP → FP → FP
  | finite a, finite b => fmt.round (a + b)
  | nan, _ => nan
  | _, nan => nan
  | posInf, negInf => nan
  | negInf, posInf => nan
  | posInf, _ => posInf
  | negInf, _ => negInf
  | finite _, posInf => posInf
  | finite _, negInf => negInf

/-- Subtraction in format `fmt`. -/
def sub (fmt : FloatFormat) : FP → FP → FP
  | finite a, finite b => fmt.round (a - b)
  | nan, _ => nan
  | _, nan => nan
  | posInf, posInf => nan
  | negInf, negInf => nan
  | posInf, _ => posInf
  | negInf, _ => negInf
  | finite _, posInf => negInf
  | finite _, negInf => posInf

/-- Multiplication in format `fmt`. -/
def mul (fmt : FloatFormat) : FP → FP → FP
  | finite a, finite b => fmt.round (a * b)
  | nan, _ => nan
  | _, nan => nan
  | finite a, posInf => if a = 0 then nan else if 0 < a then posInf else negInf
  | finite a, negInf => if a = 0 then nan else if 0 < a then negInf else posInf
  | posInf, finite b => if b = 0 then nan else if 0 < b then posInf else negInf
  | negInf, finite b => if b = 0 then nan else if 0 < b then negInf else posInf
  | posInf, posInf => posInf
  | negInf, negInf => posInf
  | posInf, negInf => negInf
  | negInf, posInf => negInf

/-- Division in format `fmt`; a zero divisor is read as `+0`. -/
def div (fmt : FloatFormat) : FP → FP → FP
  | finite a, finite b =>
    if b = 0 then (if a = 0 then nan else if 0 < a then posInf else negInf)
    else fmt.round (a / b)
  | nan, _ => nan
  | _, nan => nan
  | finite _, posInf => finite 0
  | finite _, negInf => finite 0
  | posInf, finite b => if 0 ≤ b then posInf else negInf
  | negInf, finite b => if 0 ≤ b then negInf else posInf
  | posInf, posInf => nan
  | posInf, negInf => nan
  | negInf, posInf => nan
  | negInf, negInf => nan

/-- The comparison `a < b`: false as soon as an operand is NaN. -/
def lt : FP → FP → Bool
  | finite a, finite b => decide (a < b)
  | negInf, finite _ => true
  | negInf, posInf => true
  | finite _, posInf => true
  | _, _ => false

/-- The comparison `a > b`. -/
def gt (a b : FP) : Bool := lt b a

end FP

/-- The rational value of the `Double_t` constant `3.14159265358979323846`. -/
def piD : ℚ := 884279719003555 / 281474976710656

/-- The constant `TMath::Pi()` of the ROOT library. -/
def TMath.Pi : FP := FP.finite piD

namespace DerivedBasicConsumer

/-- Function to aid in calculating delta-phi (`derivedBasicConsumer.cxx`, lines 31-41):
two independent, sequential `if` statements acting on the local `deltaPhi`, every
operation in `Double_t`. -/
def ComputeDeltaPhi (phi1 phi2 : FP) : FP :=
  let deltaPhi := FP.sub binary64 phi1 phi2
  let deltaPhi :=
    if FP.lt deltaPhi (FP.div binary64 (FP.neg TMath.Pi) (FP.finite 2)) then
      FP.add binary64 deltaPhi (FP.mul binary64 (FP.finite 2) TMath.Pi)
    else deltaPhi
  let deltaPhi :=
    if FP.gt deltaPhi (FP.div binary64 (FP.mul binary64 (FP.finite 3) TMath.Pi) (FP.finite 2))
    then FP.sub binary64 deltaPhi (FP.mul binary64 (FP.finite 2) TMath.Pi)
    else deltaPhi
  deltaPhi

/-- Row of the derived collision table `aod::DrCollisions` (columns read by `process`). -/
structure DrCollision where
  globalIndex : Int
  posZ : FP

/-- Row of the derived track table `aod::DrTracks`; the kinematic columns are `float`. -/
structure DrTrack where
  drCollisionId : Int
  pt : FP
  eta : FP
  phi : FP

/-- Fill logs of the histograms booked in `init` (lines 62-67). -/
structure Histos where
  eventCounter : List FP
  hColZ : List FP
  hPtAs : List FP
  hPtTr : List FP
  correlationFunction : List FP
  correlationFunction2d : List (FP × FP)

/-- The partition `associatedTracks` of the track table (line 44):
`pt < 6.0f && pt > 4.0f`. -/
def associatedTracks (drTracks : List DrTrack) : List DrTrack :=
  drTracks.filter (fun t => FP.lt t.pt (FP.finite 6) && FP.gt t.pt (FP.finite 4))

/-- The partition `triggerTracks` of the track table (line 45): `pt > 6.0f`. -/
def triggerTracks (drTracks : List DrTrack) : List DrTrack :=
  drTracks.filter (fun t => FP.gt t.pt (FP.finite 6))

/-- Modelled from the spec: the framework call
`partition->sliceByCached(drCollisionId, id, cache)`, whose code is not part of the
sources ("scoped per collision via a cached grouping keyed by collision identifier"): the
rows of the partition whose `drCollisionId` column equals `id`, in table order. -/
def sliceByCached (part : List DrTrack) (id : Int) : List DrTrack :=
  part.filter (fun t => decide (t.drCollisionId = id))

/-- Modelled from the spec: the framework call
`combinations(CombinationsFullIndexPolicy(a, b))`, whose code is not part of the sources
("forms the full cross-product of (trigger, associated) track pairs within the same
collision"): every pair of a row of `a` and a row of `b`, the index into `b` running
fastest; empty when either is empty. -/
def combinations (a b : List DrTrack) : List (DrTrack × DrTrack) :=
  List.product a b

/-- Body of the pair loop of `process` (lines 84-85).  The arguments of
`ComputeDeltaPhi` are `float` columns widened to `Double_t`, which changes no value; the
eta difference is a `float` subtraction. -/
def processPair (histos : Histos) (pair : DrTrack × DrTrack) : Histos :=
  let trigger := pair.1
  let associated := pair.2
  let histos := { histos with
    correlationFunction :=
      histos.correlationFunction ++ [ComputeDeltaPhi trigger.phi associated.phi] }
  { histos with
    correlationFunction2d :=
      histos.correlationFunction2d ++
        [(ComputeDeltaPhi trigger.phi associated.phi,
          FP.sub binary32 trigger.eta associated.eta)] }

/-- The function `DerivedBasicConsumer::process` (lines 70-86).  `drTracks` is the whole
track table the two partitions are bound to; `tracks` is the per-collision group handed to
`process`, which the body does not read. -/
def process (drTracks : List DrTrack) (histos : Histos) (collision : DrCollision)
    (_tracks : List DrTrack) : Histos :=
  let histos := { histos with eventCounter := histos.eventCounter ++ [FP.finite (1 / 2)] }
  let histos := { histos with hColZ := histos.hColZ ++ [collision.posZ] }
  let assoTracksThisCollision := sliceByCached (associatedTracks drTracks) collision.globalIndex
  let trigTracksThisCollision := sliceByCached (triggerTracks drTracks) collision.globalIndex
  let histos := assoTracksThisCollision.foldl
    (fun histos track => { histos with hPtAs := histos.hPtAs ++ [track.pt] }) histos
  let histos := trigTracksThisCollision.foldl
    (fun histos track => { histos with hPtTr := histos.hPtTr ++ [track.pt] }) histos
  (combinations trigTracksThisCollision assoTracksThisCollision).foldl processPair histos

end DerivedBasicConsumer

namespace myExampleTask

variable {α : Type} [LinearOrderedField α]

/-- Row of `aod::Collisions` / `aod::McCollisions` as far as the task reads it. -/
structure Collision where
  globalIndex : Int

/-- Row of `aod::McParticles`: a simulated truth particle.  `pdgCode` is a mathematical
integer, so `abs` is total (the machine `abs` is undefined only at the least `int`). -/
structure McParticle (α : Type) where
  pt : α
  y : α
  pdgCode : Int
  isPhysicalPrimary : Bool

/-- Row of `myCompleteTracks` (tracks joined with extra, DCA and truth-label columns).
The truth link is `mcParticle`: `has_mcParticle()` is `mcParticle.isSome`, and
`mcParticle()` is the linked row. -/
structure Track (α : Type) where
  collisionId : Int
  tpcNClsCrossedRows : Int
  dcaXY : α
  eta : α
  pt : α
  mcParticle : Option (McParticle α)

/-- Fill logs of the histograms booked in `init` (lines 42-52). -/
structure Histos (α : Type) where
  eventCounterHistogram : List α
  eta1Histogram : List α
  ptHistogram : List α
  ptResolution : List (α × α)
  ptHistogramPion : List α
  ptHistogramKaon : List α
  ptHistogramProton : List α
  ptGeneratedPion : List α
  ptGeneratedKaon : List α
  ptGeneratedProton : List α
  numberOfRecoCollisions : List Nat

/-- Body of the track loop of `processReco` (lines 59-71); `continue` returns the
registry unchanged. -/
def processRecoTrack (histos : Histos α) (track : Track α) : Histos α :=
  if track.tpcNClsCrossedRows < 70 then histos
  else if |track.dcaXY| > 0.2 then histos
  else
    let histos := { histos with eta1Histogram := histos.eta1Histogram ++ [track.eta] }
    let histos := { histos with ptHistogram := histos.ptHistogram ++ [track.pt] }
    match track.mcParticle with
    | none => histos
    | some mcParticle =>
      let histos := { histos with
        ptResolution := histos.ptResolution ++ [(track.pt, track.pt - mcParticle.pt)] }
      if mcParticle.isPhysicalPrimary = true ∧ |mcParticle.y| < 0.5 then
        let histos :=
          if |mcParticle.pdgCode| = 211 then
            { histos with ptHistogramPion := histos.ptHistogramPion ++ [mcParticle.pt] }
          else histos
        let histos :=
          if |mcParticle.pdgCode| = 321 then
            { histos with ptHistogramKaon := histos.ptHistogramKaon ++ [mcParticle.pt] }
          else histos
        let histos :=
          if |mcParticle.pdgCode| = 2212 then
            { histos with ptHistogramProton := histos.ptHistogramProton ++ [mcParticle.pt] }
          else histos
        histos
      else histos

/-- The function `myExampleTask::processReco` (lines 55-73).  The third argument of the
source, the `McParticles` table, is only there to make the truth links resolvable. -/
def processReco (histos : Histos α) (_collision : Collision) (tracks : List (Track α)) :
    Histos α :=
  let histos := { histos with eventCounterHistogram := histos.eventCounterHistogram ++ [0.5] }
  tracks.foldl processRecoTrack histos

/-- Body of the particle loop of `processSim` (lines 83-87). -/
def processSimParticle (histos : Histos α) (mcParticle : McParticle α) : Histos α :=
  if mcParticle.isPhysicalPrimary = true ∧ |mcParticle.y| < 0.5 then
    let histos :=
      if |mcParticle.pdgCode| = 211 then
        { histos with ptGeneratedPion := histos.ptGeneratedPion ++ [mcParticle.pt] }
      else histos
    let histos :=
      if |mcParticle.pdgCode| = 321 then
        { histos with ptGeneratedKaon := histos.ptGeneratedKaon ++ [mcParticle.pt] }
      else histos
    let histos :=
      if |mcParticle.pdgCode| = 2212 then
        { histos with ptGeneratedProton := histos.ptGeneratedProton ++ [mcParticle.pt] }
      else histos
    histos
  else histos

/-- Framework call `tracks.sliceBy(perCollision, id)`: the rows whose `collisionId`
equals `id`. -/
def sliceBy (tracks : List (Track α)) (id : Int) : List (Track α) :=
  tracks.filter (fun t => decide (t.collisionId = id))

/-- The function `myExampleTask::processSim` (lines 77-96).  The result is the registry
together with the final value of the local vector `numberOfTracks`, which the source
drops on return. -/
def processSim (histos : Histos α) (_mcCollision : Collision) (collisions : List Collision)
    (mcParticles : List (McParticle α)) (tracks : List (Track α)) : Histos α × List Nat :=
  let histos := { histos with
    numberOfRecoCollisions := histos.numberOfRecoCollisions ++ [collisions.length] }
  let histos := mcParticles.foldl processSimParticle histos
  let numberOfTracks := collisions.foldl
    (fun numberOfTracks collision =>
      let groupedTracks := sliceBy tracks collision.globalIndex
      numberOfTracks ++ [groupedTracks.length]) []
  (histos, numberOfTracks)

/-- The rejection condition of the claims about the quality cuts: crossed rows below 70,
or absolute transverse impact parameter above 0.2. -/
def failsQualityCuts (track : Track α) : Bool :=
  decide (track.tpcNClsCrossedRows < 70) || decide (|track.dcaXY| > 0.2)

/-- The tracks of a list that pass the quality cuts, in table order. -/
def passingTracks (tracks : List (Track α)) : List (Track α) :=
  tracks.filter (fun t => !failsQualityCuts t)

/-- The truth particles linked to the passing tracks of a list, one per linked track. -/
def linkedParticles (tracks : List (Track α)) : List (McParticle α) :=
  (passingTracks tracks).filterMap (fun t => t.mcParticle)

/-- The guard of the species fill for PDG code `code`: physical primary, `|y| < 0.5` and
`|pdgCode| = code`. -/
def selectsSpecies (code : Int) (mcParticle : McParticle α) : Bool :=
  mcParticle.isPhysicalPrimary && decide (|mcParticle.y| < 0.5) &&
    decide (|mcParticle.pdgCode| = code)

/-- The registry right after `init` (lines 42-52): every histogram booked, none filled. -/
def init : Histos α :=
  { eventCounterHistogram := [], eta1Histogram := [], ptHistogram := [], ptResolution := [],
    ptHistogramPion := [], ptHistogramKaon := [], ptHistogramProton := [],
    ptGeneratedPion := [], ptGeneratedKaon := [], ptGeneratedProton := [],
    numberOfRecoCollisions := [] }

/-- Scenario data: a physical-primary pion at rapidity `0.1` with `pt = 3/2`. -/
def scenarioPion : McParticle ℚ :=
  { pt := 3 / 2, y := 1 / 10, pdgCode := 211, isPhysicalPrimary := true }

/-- Scenario data: a track with 50 crossed rows (fails the crossed-rows cut). -/
def scenarioTrackFailing : Track ℚ :=
  { collisionId := 0, tpcNClsCrossedRows := 50, dcaXY := 0, eta := 3 / 10, pt := 1,
    mcParticle := none }

/-- Scenario data: a track passing both cuts, without truth link. -/
def scenarioTrackUnlinked : Track ℚ :=
  { collisionId := 0, tpcNClsCrossedRows := 100, dcaXY := 1 / 10, eta := 1 / 2, pt := 2,
    mcParticle := none }

/-- Scenario data: a track passing both cuts, linked to `scenarioPion`. -/
def scenarioTrackPion : Track ℚ :=
  { collisionId := 0, tpcNClsCrossedRows := 100, dcaXY := -1 / 10, eta := -1 / 5, pt := 7 / 4,
    mcParticle := some scenarioPion }

/-- Two registries hold the same multiset of fills in every histogram. -/
def Histos.sameContents (a b : Histos α) : Prop :=
  a.eventCounterHistogram.Perm b.eventCounterHistogram ∧
  a.eta1Histogram.Perm b.eta1Histogram ∧
  a.ptHistogram.Perm b.ptHistogram ∧
  a.ptResolution.Perm b.ptResolution ∧
  a.ptHistogramPion.Perm b.ptHistogramPion ∧
  a.ptHistogramKaon.Perm b.ptHistogramKaon ∧
  a.ptHistogramProton.Perm b.ptHistogramProton ∧
  a.ptGeneratedPion.Perm b.ptGeneratedPion ∧
  a.ptGeneratedKaon.Perm b.ptGeneratedKaon ∧
  a.ptGeneratedProton.Perm b.ptGeneratedProton ∧
  a.numberOfRecoCollisions.Perm b.numberOfRecoCollisions

end myExampleTask

/-! ## Rounding lemmas -/

/-- Rounding to an integer never goes below the floor. -/
theorem floor_le_roundHalfEven (n : ℚ) : ⌊n⌋ ≤ roundHalfEven n := by
  unfold roundHalfEven
  split_ifs <;> omega

/-- Rounding to an integer never goes above the floor plus one. -/
theorem roundHalfEven_le_floor_add_one (n : ℚ) : roundHalfEven n ≤ ⌊n⌋ + 1 := by
  unfold roundHalfEven
  split_ifs <;> omega

/-- An integer below `n` stays below the rounded `n`. -/
theorem le_roundHalfEven (n : ℚ) (k : ℤ) (h : (k : ℚ) ≤ n) : k ≤ roundHalfEven n :=
  le_trans (Int.le_floor.mpr h) (floor_le_roundHalfEven n)

/-- An integer above `n` stays above the rounded `n`. -/
theorem roundHalfEven_le (n : ℚ) (k : ℤ) (h : n ≤ (k : ℚ)) : roundHalfEven n ≤ k := by
  rcases h.lt_or_eq with h | h
  · have : ⌊n⌋ < k := Int.floor_lt.mpr h
    have := roundHalfEven_le_floor_add_one n
    omega
  · subst h
    unfold roundHalfEven
    simp

/-- Rounding to an integer is monotone. -/
theorem roundHalfEven_mono {n n' : ℚ} (h : n ≤ n') : roundHalfEven n ≤ roundHalfEven n' := by
  have hf : ⌊n⌋ ≤ ⌊n'⌋ := Int.floor_mono h
  rcases hf.lt_or_eq with hf | hf
  · have := roundHalfEven_le_floor_add_one n
    have := floor_le_roundHalfEven n'
    omega
  · unfold roundHalfEven
    rw [← hf]
    split_ifs <;> first | omega | (exfalso; linarith)

/-- Rounding to an integer moves a number by at most one half. -/
theorem abs_roundHalfEven_sub_le (n : ℚ) : |(roundHalfEven n : ℚ) - n| ≤ 1 / 2 := by
  have h1 := Int.floor_le n
  have h2 := Int.lt_floor_add_one n
  unfold roundHalfEven
  rw [abs_le]
  split_ifs <;> push_cast <;> constructor <;> linarith

/-- A number closer than one half to the integer `m` rounds to `m`. -/
theorem roundHalfEven_eq_of_close (n : ℚ) (m : ℤ) (h : |n - m| < 1 / 2) :
    roundHalfEven n = m := by
  rw [abs_lt] at h
  obtain ⟨h1, h2⟩ := h
  have hfl := Int.floor_le n
  have hfl' := Int.lt_floor_add_one n
  have a : (⌊n⌋ : ℚ) < m + 1 := by linarith
  have b : (m : ℚ) - 1 < ⌊n⌋ + 1 := by linarith
  have a' : ⌊n⌋ < m + 1 := by exact_mod_cast a
  have b' : m - 1 < ⌊n⌋ + 1 := by exact_mod_cast b
  have hcases : ⌊n⌋ = m ∨ ⌊n⌋ = m - 1 := by omega
  unfold roundHalfEven
  rcases hcases with e | e
  · rw [e]
    rw [if_pos (by linarith)]
  · rw [e]
    have c : ¬ (n - ((m - 1 : ℤ) : ℚ) < 1 / 2) := by push_cast; intro c; linarith
    have d : (1 : ℚ) / 2 < n - ((m - 1 : ℤ) : ℚ) := by push_cast; linarith
    rw [if_neg c, if_pos d]
    omega

/-- A tie above an even integer rounds down to it. -/
theorem roundHalfEven_eq_of_tie (n : ℚ) (m : ℤ) (h : n = m + 1 / 2) (he : m % 2 = 0) :
    roundHalfEven n = m := by
  have hf : ⌊n⌋ = m := by
    rw [Int.floor_eq_iff]
    constructor <;> linarith
  unfold roundHalfEven
  rw [hf, h]
  norm_num [he]

/-- Powers of two are positive. -/
theorem two_zpow_pos (z : ℤ) : (0 : ℚ) < 2 ^ z := zpow_pos (by norm_num) z

/-- The grid spacing is positive. -/
theorem FloatFormat.ulp_pos (fmt : FloatFormat) (x : ℚ) : 0 < fmt.ulp x := two_zpow_pos _

/-- Zero rounds to zero. -/
theorem FloatFormat.roundPos_zero (fmt : FloatFormat) : fmt.roundPos 0 = 0 := by
  simp [FloatFormat.roundPos, roundHalfEven]

/-- A nonnegative number rounds to a nonnegative number. -/
theorem FloatFormat.roundPos_nonneg (fmt : FloatFormat) {x : ℚ} (hx : 0 ≤ x) : 0 ≤ fmt.roundPos x := by
  unfold FloatFormat.roundPos
  have h : (0 : ℤ) ≤ roundHalfEven (x / fmt.ulp x) :=
    le_roundHalfEven _ 0 (by simpa using div_nonneg hx (fmt.ulp_pos x).le)
  exact mul_nonneg (fmt.ulp_pos x).le (by exact_mod_cast h)

/-- The rounded value does not leave the binade of `x` upwards. -/
theorem FloatFormat.roundPos_le_top (fmt : FloatFormat) (x : ℚ) :
    fmt.roundPos x ≤ 2 ^ (max (Int.log 2 x) fmt.emin + 1) := by
  have hu := fmt.ulp_pos x
  have hx : x < 2 ^ (max (Int.log 2 x) fmt.emin + 1) := by
    have h1 : x < ((2 : ℕ) : ℚ) ^ (Int.log 2 x + 1) := Int.lt_zpow_succ_log_self (by norm_num) x
    rw [Nat.cast_ofNat] at h1
    exact lt_of_lt_of_le h1 (zpow_le_zpow_right₀ (by norm_num) (by omega))
  have hsplit : (2 : ℚ) ^ (max (Int.log 2 x) fmt.emin + 1) =
      fmt.ulp x * ((2 ^ (fmt.mant + 1) : ℤ) : ℚ) := by
    unfold FloatFormat.ulp
    push_cast
    rw [← zpow_natCast, ← zpow_add₀ (by norm_num)]
    congr 1
    push_cast
    ring
  have hn : x / fmt.ulp x ≤ ((2 ^ (fmt.mant + 1) : ℤ) : ℚ) := by
    rw [div_le_iff₀ hu, mul_comm, ← hsplit]
    exact hx.le
  have hr := roundHalfEven_le _ _ hn
  rw [hsplit]
  unfold FloatFormat.roundPos
  exact mul_le_mul_of_nonneg_left (by exact_mod_cast hr) hu.le

/-- Above the least binade, the rounded value does not leave the binade of `x` downwards. -/
theorem FloatFormat.bot_le_roundPos (fmt : FloatFormat) {x : ℚ} (hx : 0 < x)
    (he : fmt.emin < max (Int.log 2 x) fmt.emin) :
    2 ^ (max (Int.log 2 x) fmt.emin) ≤ fmt.roundPos x := by
  have hu := fmt.ulp_pos x
  have hmax : max (Int.log 2 x) fmt.emin = Int.log 2 x := by
    rcases max_cases (Int.log 2 x) fmt.emin with ⟨h, _⟩ | ⟨h, _⟩
    · exact h
    · omega
  have hle : (2 : ℚ) ^ (max (Int.log 2 x) fmt.emin) ≤ x := by
    rw [hmax]
    have h1 : ((2 : ℕ) : ℚ) ^ Int.log 2 x ≤ x := Int.zpow_log_le_self (by norm_num) hx
    rwa [Nat.cast_ofNat] at h1
  have hsplit : (2 : ℚ) ^ (max (Int.log 2 x) fmt.emin) =
      fmt.ulp x * ((2 ^ fmt.mant : ℤ) : ℚ) := by
    unfold FloatFormat.ulp
    push_cast
    rw [← zpow_natCast, ← zpow_add₀ (by norm_num)]
    congr 1
    ring
  have hn : ((2 ^ fmt.mant : ℤ) : ℚ) ≤ x / fmt.ulp x := by
    rw [le_div_iff₀ hu, mul_comm, ← hsplit]
    exact hle
  have hr := le_roundHalfEven _ _ hn
  rw [hsplit]
  unfold FloatFormat.roundPos
  exact mul_le_mul_of_nonneg_left (by exact_mod_cast hr) hu.le

/-- Rounding of nonnegative numbers is monotone. -/
theorem FloatFormat.roundPos_mono (fmt : FloatFormat) {x y : ℚ} (hx : 0 ≤ x) (hxy : x ≤ y) :
    fmt.roundPos x ≤ fmt.roundPos y := by
  rcases hx.lt_or_eq with hx | hx
  · have hlog : Int.log 2 x ≤ Int.log 2 y := Int.log_mono_right hx hxy
    have hE : max (Int.log 2 x) fmt.emin ≤ max (Int.log 2 y) fmt.emin :=
      max_le_max hlog le_rfl
    rcases hE.lt_or_eq with hE | hE
    · calc fmt.roundPos x ≤ 2 ^ (max (Int.log 2 x) fmt.emin + 1) := fmt.roundPos_le_top x
        _ ≤ 2 ^ (max (Int.log 2 y) fmt.emin) := zpow_le_zpow_right₀ (by norm_num) (by omega)
        _ ≤ fmt.roundPos y :=
          fmt.bot_le_roundPos (lt_of_lt_of_le hx hxy)
            (lt_of_le_of_lt (le_max_right _ _) hE)
    · have hu : fmt.ulp x = fmt.ulp y := by
        unfold FloatFormat.ulp
        rw [hE]
      unfold FloatFormat.roundPos
      rw [hu]
      have hr : roundHalfEven (x / fmt.ulp y) ≤ roundHalfEven (y / fmt.ulp y) :=
        roundHalfEven_mono (div_le_div_of_nonneg_right hxy (fmt.ulp_pos y).le)
      exact mul_le_mul_of_nonneg_left (by exact_mod_cast hr) (fmt.ulp_pos y).le
  · rw [← hx, fmt.roundPos_zero]
    exact fmt.roundPos_nonneg (by linarith)

/-- Rounding is monotone. -/
theorem FloatFormat.roundRaw_mono (fmt : FloatFormat) {x y : ℚ} (hxy : x ≤ y) :
    fmt.roundRaw x ≤ fmt.roundRaw y := by
  unfold FloatFormat.roundRaw
  by_cases hx : 0 ≤ x
  · rw [if_pos hx, if_pos (le_trans hx hxy)]
    exact fmt.roundPos_mono hx hxy
  · rw [if_neg hx]
    by_cases hy : 0 ≤ y
    · rw [if_pos hy]
      have h1 := fmt.roundPos_nonneg (x := -x) (by linarith)
      have h2 := fmt.roundPos_nonneg hy
      linarith
    · rw [if_neg hy]
      have := fmt.roundPos_mono (x := -y) (y := -x) (by linarith) (by linarith)
      linarith

/-- Rounding of `x > 0` in the binade `e`, from the rounded significand `m`. -/
theorem FloatFormat.roundPos_eq (fmt : FloatFormat) {x : ℚ} (e m : ℤ) (hx : 0 < x)
    (he : fmt.emin ≤ e) (h1 : 2 ^ e ≤ x) (h2 : x < 2 ^ (e + 1))
    (hm : roundHalfEven (x / 2 ^ (e - fmt.mant)) = m) :
    fmt.roundPos x = 2 ^ (e - fmt.mant) * m := by
  have hlog : Int.log 2 x = e := by
    have a : e ≤ Int.log 2 x := by
      rw [← Int.zpow_le_iff_le_log (by norm_num) hx, Nat.cast_ofNat]
      exact h1
    have b : Int.log 2 x < e + 1 := by
      rw [← Int.lt_zpow_iff_log_lt (by norm_num) hx, Nat.cast_ofNat]
      exact h2
    omega
  unfold FloatFormat.roundPos FloatFormat.ulp
  rw [hlog, max_eq_left he, hm]

/-- Zero is a value of every format. -/
theorem FloatFormat.round_zero (fmt : FloatFormat) : fmt.round 0 = FP.finite 0 := by
  have h : fmt.roundRaw 0 = 0 := by
    unfold FloatFormat.roundRaw
    rw [if_pos le_rfl, fmt.roundPos_zero]
  unfold FloatFormat.round
  rw [h, if_neg (not_le.mpr (two_zpow_pos _)), if_neg]
  have := two_zpow_pos fmt.emax
  intro h0
  linarith

/-- The IEEE value of `x > 0` in the binade `e`, from the rounded significand `m`. -/
theorem FloatFormat.round_eq_of_pos (fmt : FloatFormat) {x r : ℚ} (e m : ℤ) (hx : 0 < x)
    (he : fmt.emin ≤ e) (h1 : 2 ^ e ≤ x) (h2 : x < 2 ^ (e + 1))
    (hm : roundHalfEven (x / 2 ^ (e - fmt.mant)) = m)
    (hr : 2 ^ (e - fmt.mant) * (m : ℚ) = r) (hfin : r < 2 ^ fmt.emax) :
    fmt.round x = FP.finite r := by
  have hraw : fmt.roundRaw x = r := by
    unfold FloatFormat.roundRaw
    rw [if_pos hx.le, fmt.roundPos_eq e m hx he h1 h2 hm, hr]
  have hnn : 0 ≤ r := by
    rw [← hraw]
    unfold FloatFormat.roundRaw
    rw [if_pos hx.le]
    exact fmt.roundPos_nonneg hx.le
  unfold FloatFormat.round
  rw [hraw, if_neg (not_le.mpr hfin), if_neg]
  have := two_zpow_pos fmt.emax
  intro h0
  linarith

/-- The IEEE value of `x < 0` with `-x` in the binade `e`, from the rounded significand `m`. -/
theorem FloatFormat.round_eq_of_neg (fmt : FloatFormat) {x r : ℚ} (e m : ℤ) (hx : x < 0)
    (he : fmt.emin ≤ e) (h1 : 2 ^ e ≤ -x) (h2 : -x < 2 ^ (e + 1))
    (hm : roundHalfEven (-x / 2 ^ (e - fmt.mant)) = m)
    (hr : -(2 ^ (e - fmt.mant) * (m : ℚ)) = r) (hfin : -2 ^ fmt.emax < r) :
    fmt.round x = FP.finite r := by
  have hraw : fmt.roundRaw x = r := by
    unfold FloatFormat.roundRaw
    rw [if_neg (not_le.mpr hx), fmt.roundPos_eq e m (by linarith) he h1 h2 hm, hr]
  have hnp : r ≤ 0 := by
    rw [← hraw]
    unfold FloatFormat.roundRaw
    rw [if_neg (not_le.mpr hx)]
    have := fmt.roundPos_nonneg (x := -x) (by linarith)
    linarith
  unfold FloatFormat.round
  have := two_zpow_pos fmt.emax
  rw [hraw, if_neg (by intro h0; linarith), if_neg (not_le.mpr hfin)]

/-- Rounding `0 ≤ x < 2 ^ (k + 1)` moves it by at most half the spacing of binade `k`. -/
theorem FloatFormat.abs_roundPos_sub_le (fmt : FloatFormat) {x : ℚ} (k : ℤ) (hx : 0 ≤ x)
    (hk : fmt.emin ≤ k) (hxk : x < 2 ^ (k + 1)) :
    |fmt.roundPos x - x| ≤ 2 ^ (k - fmt.mant) / 2 := by
  rcases hx.lt_or_eq with hx | hx
  · have hu := fmt.ulp_pos x
    have hlog : Int.log 2 x ≤ k := by
      have : Int.log 2 x < k + 1 := by
        rw [← Int.lt_zpow_iff_log_lt (by norm_num) hx, Nat.cast_ofNat]
        exact hxk
      omega
    have hule : fmt.ulp x ≤ 2 ^ (k - fmt.mant) := by
      unfold FloatFormat.ulp
      apply zpow_le_zpow_right₀ (by norm_num)
      have := max_le hlog hk
      omega
    have herr := abs_roundHalfEven_sub_le (x / fmt.ulp x)
    have hrew : fmt.roundPos x - x =
        fmt.ulp x * ((roundHalfEven (x / fmt.ulp x) : ℚ) - x / fmt.ulp x) := by
      unfold FloatFormat.roundPos
      field_simp
      ring
    rw [hrew, abs_mul, abs_of_pos hu]
    calc fmt.ulp x * |(roundHalfEven (x / fmt.ulp x) : ℚ) - x / fmt.ulp x|
        ≤ fmt.ulp x * (1 / 2) := mul_le_mul_of_nonneg_left herr hu.le
      _ ≤ 2 ^ (k - fmt.mant) * (1 / 2) := mul_le_mul_of_nonneg_right hule (by norm_num)
      _ = 2 ^ (k - fmt.mant) / 2 := by ring
  · rw [← hx, fmt.roundPos_zero]
    simp only [sub_self, abs_zero]
    exact div_nonneg (two_zpow_pos _).le (by norm_num)

/-- Rounding `|x| < 2 ^ (k + 1)` moves it by at most half the spacing of binade `k`. -/
theorem FloatFormat.abs_roundRaw_sub_le (fmt : FloatFormat) {x : ℚ} (k : ℤ)
    (hk : fmt.emin ≤ k) (hxk : |x| < 2 ^ (k + 1)) :
    |fmt.roundRaw x - x| ≤ 2 ^ (k - fmt.mant) / 2 := by
  rw [abs_lt] at hxk
  unfold FloatFormat.roundRaw
  by_cases hx : 0 ≤ x
  · rw [if_pos hx]
    exact fmt.abs_roundPos_sub_le k hx hk hxk.2
  · rw [if_neg hx]
    have := fmt.abs_roundPos_sub_le (x := -x) k (by linarith) hk (by linarith)
    rw [show -fmt.roundPos (-x) - x = -(fmt.roundPos (-x) - -x) by ring, abs_neg]
    exact this

/-- A finite IEEE value is the rounding of its pre-image, inside the finite range. -/
theorem FloatFormat.roundRaw_of_round_eq (fmt : FloatFormat) {x r : ℚ}
    (h : fmt.round x = FP.finite r) :
    fmt.roundRaw x = r ∧ -2 ^ fmt.emax < r ∧ r < 2 ^ fmt.emax := by
  unfold FloatFormat.round at h
  split_ifs at h with h1 h2
  have e : fmt.roundRaw x = r := by
    injection h
  rw [e] at h1 h2
  exact ⟨e, not_le.mp h2, not_le.mp h1⟩

/-- Between two values of the format, the IEEE value is finite and stays between them. -/
theorem FloatFormat.round_mem_Icc (fmt : FloatFormat) (x lo hi : ℚ) (hlo : lo ≤ x)
    (hhi : x ≤ hi) (elo : fmt.round lo = FP.finite lo) (ehi : fmt.round hi = FP.finite hi) :
    ∃ r : ℚ, fmt.round x = FP.finite r ∧ lo ≤ r ∧ r ≤ hi := by
  obtain ⟨rlo, blo, _⟩ := fmt.roundRaw_of_round_eq elo
  obtain ⟨rhi, _, bhi⟩ := fmt.roundRaw_of_round_eq ehi
  have h1 : lo ≤ fmt.roundRaw x := by
    have := fmt.roundRaw_mono hlo
    rwa [rlo] at this
  have h2 : fmt.roundRaw x ≤ hi := by
    have := fmt.roundRaw_mono hhi
    rwa [rhi] at this
  refine ⟨fmt.roundRaw x, ?_, h1, h2⟩
  unfold FloatFormat.round
  rw [if_neg (by intro h; linarith), if_neg (by intro h; linarith)]

/-- The IEEE value of a number below a value `y` of the format is not above `y`. -/
theorem FloatFormat.gt_round_eq_false (fmt : FloatFormat) {x y : ℚ} (hxy : x ≤ y)
    (ey : fmt.round y = FP.finite y) : FP.gt (fmt.round x) (FP.finite y) = false := by
  obtain ⟨ry, _, by'⟩ := fmt.roundRaw_of_round_eq ey
  have h : fmt.roundRaw x ≤ y := by
    have := fmt.roundRaw_mono hxy
    rwa [ry] at this
  unfold FloatFormat.round
  rw [if_neg (by intro h'; linarith)]
  split_ifs
  · rfl
  · simp only [FP.gt, FP.lt, decide_eq_false_iff_not, not_lt]
    exact h

/-! ## `ComputeDeltaPhi` -/

namespace DerivedBasicConsumer

/-- The value `-π/2` of the source is a `Double_t`. -/
theorem round_lowEdge : binary64.round (-piD / 2) = FP.finite (-piD / 2) := by
  apply binary64.round_eq_of_neg 0 7074237752028440
  · norm_num [piD]
  · norm_num [binary64]
  · norm_num [piD]
  · norm_num [piD]
  · apply roundHalfEven_eq_of_close
    norm_num [piD, binary64]
  · norm_num [piD, binary64]
  · norm_num [piD, binary64]

/-- The value `3π/2` of the source is a `Double_t`. -/
theorem round_highEdge : binary64.round (3 * piD / 2) = FP.finite (3 * piD / 2) := by
  apply binary64.round_eq_of_pos 2 5305678314021330
  · norm_num [piD]
  · norm_num [binary64]
  · norm_num [piD]
  · norm_num [piD]
  · apply roundHalfEven_eq_of_close
    norm_num [piD, binary64]
  · norm_num [piD, binary64]
  · norm_num [piD, binary64]

/-- The value `2π` of the source is a `Double_t`. -/
theorem round_twoPi : binary64.round (2 * piD) = FP.finite (2 * piD) := by
  apply binary64.round_eq_of_pos 2 7074237752028440
  · norm_num [piD]
  · norm_num [binary64]
  · norm_num [piD]
  · norm_num [piD]
  · apply roundHalfEven_eq_of_close
    norm_num [piD, binary64]
  · norm_num [piD, binary64]
  · norm_num [piD, binary64]

/-- The value `-2π` is a `Double_t`. -/
theorem round_neg_twoPi : binary64.round (-(2 * piD)) = FP.finite (-(2 * piD)) := by
  apply binary64.round_eq_of_neg 2 7074237752028440
  · norm_num [piD]
  · norm_num [binary64]
  · norm_num [piD]
  · norm_num [piD]
  · apply roundHalfEven_eq_of_close
    norm_num [piD, binary64]
  · norm_num [piD, binary64]
  · norm_num [piD, binary64]

/-- The source expression `-TMath::Pi() / 2.` evaluates to `-π/2` without rounding. -/
theorem lowEdge_eq :
    FP.div binary64 (FP.neg TMath.Pi) (FP.finite 2) = FP.finite (-piD / 2) := by
  simp only [TMath.Pi, FP.neg, FP.div]
  rw [if_neg (by norm_num)]
  exact round_lowEdge

/-- The source expression `3 * TMath::Pi() / 2.` evaluates to `3π/2` without rounding. -/
theorem highEdge_eq :
    FP.div binary64 (FP.mul binary64 (FP.finite 3) TMath.Pi) (FP.finite 2) =
      FP.finite (3 * piD / 2) := by
  have h3 : binary64.round (3 * piD) = FP.finite (3 * piD) := by
    apply binary64.round_eq_of_pos 3 5305678314021330
    · norm_num [piD]
    · norm_num [binary64]
    · norm_num [piD]
    · norm_num [piD]
    · apply roundHalfEven_eq_of_close
      norm_num [piD, binary64]
    · norm_num [piD, binary64]
    · norm_num [piD, binary64]
  simp only [TMath.Pi, FP.mul, h3, FP.div]
  rw [if_neg (by norm_num)]
  exact round_highEdge

/-- The source expression `2. * TMath::Pi()` evaluates to `2π` without rounding. -/
theorem twoPi_eq : FP.mul binary64 (FP.finite 2) TMath.Pi = FP.finite (2 * piD) := by
  simp only [TMath.Pi, FP.mul]
  exact round_twoPi

/-- The body of `ComputeDeltaPhi` with its three constants evaluated. -/
theorem ComputeDeltaPhi_eq (phi1 phi2 : FP) :
    ComputeDeltaPhi phi1 phi2 =
      if FP.gt
          (if FP.lt (FP.sub binary64 phi1 phi2) (FP.finite (-piD / 2)) then
            FP.add binary64 (FP.sub binary64 phi1 phi2) (FP.finite (2 * piD))
          else FP.sub binary64 phi1 phi2) (FP.finite (3 * piD / 2)) then
        FP.sub binary64
          (if FP.lt (FP.sub binary64 phi1 phi2) (FP.finite (-piD / 2)) then
            FP.add binary64 (FP.sub binary64 phi1 phi2) (FP.finite (2 * piD))
          else FP.sub binary64 phi1 phi2) (FP.finite (2 * piD))
      else
        if FP.lt (FP.sub binary64 phi1 phi2) (FP.finite (-piD / 2)) then
          FP.add binary64 (FP.sub binary64 phi1 phi2) (FP.finite (2 * piD))
        else FP.sub binary64 phi1 phi2 := by
  unfold ComputeDeltaPhi
  simp only [lowEdge_eq, highEdge_eq, twoPi_eq]

/-- After the first adjustment the second guard is false. -/
theorem second_guard_false (d : FP) (h : FP.lt d (FP.finite (-piD / 2)) = true) :
    FP.gt (FP.add binary64 d (FP.finite (2 * piD))) (FP.finite (3 * piD / 2)) = false := by
  cases d with
  | finite q =>
    simp only [FP.lt, decide_eq_true_eq] at h
    simp only [FP.add]
    exact binary64.gt_round_eq_false (by linarith) round_highEdge
  | posInf => simp [FP.lt] at h
  | negInf => rfl
  | nan => simp [FP.lt] at h

/-- When the second guard holds for the difference, the first was false. -/
theorem first_guard_false (d : FP) (h : FP.gt d (FP.finite (3 * piD / 2)) = true) :
    FP.lt d (FP.finite (-piD / 2)) = false := by
  cases d with
  | finite q =>
    simp only [FP.gt, FP.lt, decide_eq_true_eq] at h
    simp only [FP.lt, decide_eq_false_iff_not, not_lt]
    have : (0 : ℚ) < piD := by norm_num [piD]
    linarith
  | posInf => rfl
  | negInf => simp [FP.gt, FP.lt] at h
  | nan => simp [FP.gt, FP.lt] at h

/-- Below the lower edge only the first adjustment fires. -/
theorem ComputeDeltaPhi_of_lt (phi1 phi2 : FP)
    (h : FP.lt (FP.sub binary64 phi1 phi2) (FP.finite (-piD / 2)) = true) :
    ComputeDeltaPhi phi1 phi2 =
      FP.add binary64 (FP.sub binary64 phi1 phi2) (FP.finite (2 * piD)) := by
  rw [ComputeDeltaPhi_eq]
  simp [h, second_guard_false _ h]

/-- Above the upper edge only the second adjustment fires. -/
theorem ComputeDeltaPhi_of_gt (phi1 phi2 : FP)
    (h : FP.gt (FP.sub binary64 phi1 phi2) (FP.finite (3 * piD / 2)) = true) :
    ComputeDeltaPhi phi1 phi2 =
      FP.sub binary64 (FP.sub binary64 phi1 phi2) (FP.finite (2 * piD)) := by
  rw [ComputeDeltaPhi_eq]
  simp [h, first_guard_false _ h]

/-- Between the edges (both included), and for NaN, no adjustment fires. -/
theorem ComputeDeltaPhi_of_mid (phi1 phi2 : FP)
    (h1 : FP.lt (FP.sub binary64 phi1 phi2) (FP.finite (-piD / 2)) = false)
    (h2 : FP.gt (FP.sub binary64 phi1 phi2) (FP.finite (3 * piD / 2)) = false) :
    ComputeDeltaPhi phi1 phi2 = FP.sub binary64 phi1 phi2 := by
  rw [ComputeDeltaPhi_eq]
  simp [h1, h2]

/-- C2 (as amended): with `d` the `Double_t` difference `phi1 - phi2` as the code computes
it, `ComputeDeltaPhi` returns the `Double_t` sum `d + 2π` when `d < -π/2` (and then the
second guard is false, so `2π` is not subtracted again), the `Double_t` difference
`d - 2π` when `d > 3π/2` (and then the first guard was false), and `d` itself otherwise;
for `eps > 0` a computed difference `-π/2 - eps` returns `3π/2 - eps` rounded to
`Double_t`, and a computed difference `3π/2 + eps` returns `-π/2 + eps` rounded to
`Double_t`. -/
theorem ComputeDeltaPhi_piecewise (phi1 phi2 : FP) :
    (FP.lt (FP.sub binary64 phi1 phi2) (FP.finite (-piD / 2)) = true →
      ComputeDeltaPhi phi1 phi2 =
          FP.add binary64 (FP.sub binary64 phi1 phi2) (FP.finite (2 * piD)) ∧
        FP.gt (FP.add binary64 (FP.sub binary64 phi1 phi2) (FP.finite (2 * piD)))
          (FP.finite (3 * piD / 2)) = false) ∧
    (FP.gt (FP.sub binary64 phi1 phi2) (FP.finite (3 * piD / 2)) = true →
      ComputeDeltaPhi phi1 phi2 =
          FP.sub binary64 (FP.sub binary64 phi1 phi2) (FP.finite (2 * piD)) ∧
        FP.lt (FP.sub binary64 phi1 phi2) (FP.finite (-piD / 2)) = false) ∧
    (FP.lt (FP.sub binary64 phi1 phi2) (FP.finite (-piD / 2)) = false →
      FP.gt (FP.sub binary64 phi1 phi2) (FP.finite (3 * piD / 2)) = false →
      ComputeDeltaPhi phi1 phi2 = FP.sub binary64 phi1 phi2) ∧
    (∀ eps : ℚ, 0 < eps → FP.sub binary64 phi1 phi2 = FP.finite (-piD / 2 - eps) →
      ComputeDeltaPhi phi1 phi2 = binary64.round (3 * piD / 2 - eps)) ∧
    (∀ eps : ℚ, 0 < eps → FP.sub binary64 phi1 phi2 = FP.finite (3 * piD / 2 + eps) →
      ComputeDeltaPhi phi1 phi2 = binary64.round (-piD / 2 + eps)) := by
  refine ⟨fun h => ⟨ComputeDeltaPhi_of_lt phi1 phi2 h, second_guard_false _ h⟩,
    fun h => ⟨ComputeDeltaPhi_of_gt phi1 phi2 h, first_guard_false _ h⟩,
    ComputeDeltaPhi_of_mid phi1 phi2, ?_, ?_⟩
  · intro eps heps hd
    have h : FP.lt (FP.sub binary64 phi1 phi2) (FP.finite (-piD / 2)) = true := by
      rw [hd]
      simp only [FP.lt, decide_eq_true_eq]
      linarith
    rw [ComputeDeltaPhi_of_lt phi1 phi2 h, hd]
    simp only [FP.add]
    congr 1
    ring
  · intro eps heps hd
    have h : FP.gt (FP.sub binary64 phi1 phi2) (FP.finite (3 * piD / 2)) = true := by
      rw [hd]
      simp only [FP.gt, FP.lt, decide_eq_true_eq]
      linarith
    rw [ComputeDeltaPhi_of_gt phi1 phi2 h, hd]
    simp only [FP.sub]
    congr 1
    ring

/-- The `Double_t` difference `0 - 2` is `-2`. -/
theorem sub_zero_two : FP.sub binary64 (FP.finite 0) (FP.finite 2) = FP.finite (-2) := by
  simp only [FP.sub]
  apply binary64.round_eq_of_neg 1 4503599627370496
  · norm_num
  · norm_num [binary64]
  · norm_num
  · norm_num
  · apply roundHalfEven_eq_of_close
    norm_num [binary64]
  · norm_num [binary64]
  · norm_num [binary64]

/-- Witness of C2 (as amended) at `phi1 = 0`, `phi2 = 2`: the computed difference `-2` is
below `-π/2`, so the first branch is taken and the second guard is false. -/
theorem ComputeDeltaPhi_piecewise_witness :
    FP.lt (FP.sub binary64 (FP.finite 0) (FP.finite 2)) (FP.finite (-piD / 2)) = true ∧
    ComputeDeltaPhi (FP.finite 0) (FP.finite 2) =
      FP.add binary64 (FP.sub binary64 (FP.finite 0) (FP.finite 2)) (FP.finite (2 * piD)) ∧
    FP.gt (FP.add binary64 (FP.sub binary64 (FP.finite 0) (FP.finite 2))
      (FP.finite (2 * piD))) (FP.finite (3 * piD / 2)) = false := by
  have h : FP.lt (FP.sub binary64 (FP.finite 0) (FP.finite 2)) (FP.finite (-piD / 2)) =
      true := by
    rw [sub_zero_two]
    simp only [FP.lt, decide_eq_true_eq]
    norm_num [piD]
  exact ⟨h, (ComputeDeltaPhi_piecewise (FP.finite 0) (FP.finite 2)).1 h⟩

/-- The three cases of `ComputeDeltaPhi` on a finite computed difference `q`. -/
theorem ComputeDeltaPhi_of_finite (phi1 phi2 : FP) (q : ℚ)
    (hd : FP.sub binary64 phi1 phi2 = FP.finite q) :
    (-piD / 2 ≤ q → q ≤ 3 * piD / 2 → ComputeDeltaPhi phi1 phi2 = FP.finite q) ∧
    (q < -piD / 2 → ComputeDeltaPhi phi1 phi2 = binary64.round (q + 2 * piD)) ∧
    (3 * piD / 2 < q → ComputeDeltaPhi phi1 phi2 = binary64.round (q - 2 * piD)) := by
  refine ⟨?_, ?_, ?_⟩
  · intro h1 h2
    have a : FP.lt (FP.sub binary64 phi1 phi2) (FP.finite (-piD / 2)) = false := by
      rw [hd]
      simp only [FP.lt, decide_eq_false_iff_not, not_lt]
      exact h1
    have b : FP.gt (FP.sub binary64 phi1 phi2) (FP.finite (3 * piD / 2)) = false := by
      rw [hd]
      simp only [FP.gt, FP.lt, decide_eq_false_iff_not, not_lt]
      exact h2
    rw [ComputeDeltaPhi_of_mid phi1 phi2 a b, hd]
  · intro h
    have hlt : FP.lt (FP.sub binary64 phi1 phi2) (FP.finite (-piD / 2)) = true := by
      rw [hd]
      simp only [FP.lt, decide_eq_true_eq]
      exact h
    rw [ComputeDeltaPhi_of_lt phi1 phi2 hlt, hd]
    rfl
  · intro h
    have hgt : FP.gt (FP.sub binary64 phi1 phi2) (FP.finite (3 * piD / 2)) = true := by
      rw [hd]
      simp only [FP.gt, FP.lt, decide_eq_true_eq]
      exact h
    rw [ComputeDeltaPhi_of_gt phi1 phi2 hgt, hd]
    rfl

/-- C1 (as amended): let `q` be the `Double_t` difference `phi1 - phi2` as the code
computes it, finite.  If `-5π/2 ≤ q ≤ 7π/2` the result lies in the closed interval
`[-π/2, 3π/2]`.  If `-π/2 ≤ q ≤ 3π/2` the result is `q` itself, so the difference `-π/2`
is returned unchanged and the lower bound is attained.  A difference below `-π/2` is
moved up by one `2π` only and a difference above `3π/2` is moved down by one `2π` only
(each rounded to `Double_t`), whatever its size. -/
theorem ComputeDeltaPhi_range (phi1 phi2 : FP) (q : ℚ)
    (hd : FP.sub binary64 phi1 phi2 = FP.finite q) :
    (-(5 * piD) / 2 ≤ q → q ≤ 7 * piD / 2 →
      ∃ r : ℚ, ComputeDeltaPhi phi1 phi2 = FP.finite r ∧ -piD / 2 ≤ r ∧ r ≤ 3 * piD / 2) ∧
    (-piD / 2 ≤ q → q ≤ 3 * piD / 2 → ComputeDeltaPhi phi1 phi2 = FP.finite q) ∧
    (q < -piD / 2 → ComputeDeltaPhi phi1 phi2 = binary64.round (q + 2 * piD)) ∧
    (3 * piD / 2 < q → ComputeDeltaPhi phi1 phi2 = binary64.round (q - 2 * piD)) := by
  have hpi : (0 : ℚ) < piD := by norm_num [piD]
  obtain ⟨hmid, hlow, hhigh⟩ := ComputeDeltaPhi_of_finite phi1 phi2 q hd
  refine ⟨?_, hmid, hlow, hhigh⟩
  intro h1 h2
  by_cases a : q < -piD / 2
  · rw [hlow a]
    exact binary64.round_mem_Icc (q + 2 * piD) (-piD / 2) (3 * piD / 2) (by linarith)
      (by linarith) round_lowEdge round_highEdge
  · by_cases b : 3 * piD / 2 < q
    · rw [hhigh b]
      exact binary64.round_mem_Icc (q - 2 * piD) (-piD / 2) (3 * piD / 2) (by linarith)
        (by linarith) round_lowEdge round_highEdge
    · exact ⟨q, hmid (not_lt.mp a) (not_lt.mp b), not_lt.mp a, not_lt.mp b⟩

/-- Witness of C1 (as amended) at `phi1 = 0`, `phi2 = 2`: the computed difference `-2` is
below `-π/2` and is moved up by one `2π`. -/
theorem ComputeDeltaPhi_range_witness :
    FP.sub binary64 (FP.finite 0) (FP.finite 2) = FP.finite (-2) ∧
    ((-(5 * piD) / 2 ≤ -2 → (-2 : ℚ) ≤ 7 * piD / 2 →
      ∃ r : ℚ, ComputeDeltaPhi (FP.finite 0) (FP.finite 2) = FP.finite r ∧
        -piD / 2 ≤ r ∧ r ≤ 3 * piD / 2) ∧
    (-piD / 2 ≤ -2 → (-2 : ℚ) ≤ 3 * piD / 2 →
      ComputeDeltaPhi (FP.finite 0) (FP.finite 2) = FP.finite (-2)) ∧
    ((-2 : ℚ) < -piD / 2 →
      ComputeDeltaPhi (FP.finite 0) (FP.finite 2) = binary64.round (-2 + 2 * piD)) ∧
    (3 * piD / 2 < -2 →
      ComputeDeltaPhi (FP.finite 0) (FP.finite 2) = binary64.round (-2 - 2 * piD))) :=
  ⟨sub_zero_two, ComputeDeltaPhi_range (FP.finite 0) (FP.finite 2) (-2) sub_zero_two⟩

/-- The value `4π` is a `Double_t`. -/
theorem round_fourPi : binary64.round (4 * piD) = FP.finite (4 * piD) := by
  apply binary64.round_eq_of_pos 3 7074237752028440
  · norm_num [piD]
  · norm_num [binary64]
  · norm_num [piD]
  · norm_num [piD]
  · apply roundHalfEven_eq_of_close
    norm_num [piD, binary64]
  · norm_num [piD, binary64]
  · norm_num [piD, binary64]

/-- The value `π/2` is a `Double_t`. -/
theorem round_halfPi : binary64.round (piD / 2) = FP.finite (piD / 2) := by
  apply binary64.round_eq_of_pos 0 7074237752028440
  · norm_num [piD]
  · norm_num [binary64]
  · norm_num [piD]
  · norm_num [piD]
  · apply roundHalfEven_eq_of_close
    norm_num [piD, binary64]
  · norm_num [piD, binary64]
  · norm_num [piD, binary64]

/-- At `phi1 = 0`, `phi2 = π/2` the difference `-π/2` is returned unchanged. -/
theorem ComputeDeltaPhi_zero_halfPi :
    ComputeDeltaPhi (FP.finite 0) (FP.finite (piD / 2)) = FP.finite (-piD / 2) := by
  have hd : FP.sub binary64 (FP.finite 0) (FP.finite (piD / 2)) = FP.finite (-piD / 2) := by
    simp only [FP.sub]
    rw [show (0 : ℚ) - piD / 2 = -piD / 2 by ring]
    exact round_lowEdge
  have a : FP.lt (FP.sub binary64 (FP.finite 0) (FP.finite (piD / 2)))
      (FP.finite (-piD / 2)) = false := by
    rw [hd]
    simp [FP.lt]
  have b : FP.gt (FP.sub binary64 (FP.finite 0) (FP.finite (piD / 2)))
      (FP.finite (3 * piD / 2)) = false := by
    rw [hd]
    simp only [FP.gt, FP.lt, decide_eq_false_iff_not, not_lt]
    norm_num [piD]
  rw [ComputeDeltaPhi_of_mid _ _ a b, hd]

/-- At `phi1 = 4π`, `phi2 = 0` the difference `4π` is moved down by one `2π` only. -/
theorem ComputeDeltaPhi_fourPi_zero :
    ComputeDeltaPhi (FP.finite (4 * piD)) (FP.finite 0) = FP.finite (2 * piD) := by
  have hd : FP.sub binary64 (FP.finite (4 * piD)) (FP.finite 0) = FP.finite (4 * piD) := by
    simp only [FP.sub]
    rw [show 4 * piD - 0 = 4 * piD by ring]
    exact round_fourPi
  have b : FP.gt (FP.sub binary64 (FP.finite (4 * piD)) (FP.finite 0))
      (FP.finite (3 * piD / 2)) = true := by
    rw [hd]
    simp only [FP.gt, FP.lt, decide_eq_true_eq]
    norm_num [piD]
  rw [ComputeDeltaPhi_of_gt _ _ b, hd]
  simp only [FP.sub]
  rw [show 4 * piD - 2 * piD = 2 * piD by ring]
  exact round_twoPi

/-- C1 fails as stated.  The inputs `0`, `π/2` and `4π` are `Double_t` values.  At
`phi1 = 0`, `phi2 = π/2` the result is `-π/2`, which is not strictly above `-π/2`; at
`phi1 = 4π`, `phi2 = 0` the result is `2π`, which is above `3π/2`.  Neither result lies
in the half-open interval `(-π/2, 3π/2]`. -/
theorem ComputeDeltaPhi_not_mem_Ioc :
    (binary64.round (piD / 2) = FP.finite (piD / 2) ∧
      binary64.round (4 * piD) = FP.finite (4 * piD)) ∧
    ComputeDeltaPhi (FP.finite 0) (FP.finite (piD / 2)) = FP.finite (-piD / 2) ∧
    ComputeDeltaPhi (FP.finite (4 * piD)) (FP.finite 0) = FP.finite (2 * piD) ∧
    ¬ (∃ r : ℚ, ComputeDeltaPhi (FP.finite 0) (FP.finite (piD / 2)) = FP.finite r ∧
        -piD / 2 < r ∧ r ≤ 3 * piD / 2) ∧
    ¬ (∃ r : ℚ, ComputeDeltaPhi (FP.finite (4 * piD)) (FP.finite 0) = FP.finite r ∧
        -piD / 2 < r ∧ r ≤ 3 * piD / 2) := by
  refine ⟨⟨round_halfPi, round_fourPi⟩, ComputeDeltaPhi_zero_halfPi,
    ComputeDeltaPhi_fourPi_zero, ?_, ?_⟩
  · rintro ⟨r, hr, h1, _⟩
    rw [ComputeDeltaPhi_zero_halfPi] at hr
    injection hr with hr
    rw [hr] at h1
    exact lt_irrefl _ h1
  · rintro ⟨r, hr, _, h2⟩
    rw [ComputeDeltaPhi_fourPi_zero] at hr
    injection hr with hr
    rw [← hr] at h2
    norm_num [piD] at h2

/-- The value `2 ^ (-60)` is a `Double_t`. -/
theorem round_tiny : binary64.round (1 / 2 ^ 60) = FP.finite (1 / 2 ^ 60) := by
  apply binary64.round_eq_of_pos (-60) 4503599627370496
  · norm_num
  · norm_num [binary64]
  · norm_num
  · norm_num
  · apply roundHalfEven_eq_of_close
    norm_num [binary64]
  · norm_num [binary64]
  · norm_num [binary64]

/-- The `Double_t` difference of `-π/2` and `2 ^ (-60)` rounds back to `-π/2`. -/
theorem sub_lowEdge_tiny :
    FP.sub binary64 (FP.finite (-piD / 2)) (FP.finite (1 / 2 ^ 60)) =
      FP.finite (-piD / 2) := by
  simp only [FP.sub]
  apply binary64.round_eq_of_neg 0 7074237752028440
  · norm_num [piD]
  · norm_num [binary64]
  · norm_num [piD]
  · norm_num [piD]
  · apply roundHalfEven_eq_of_close
    norm_num [piD, binary64]
    rw [abs_of_pos (by norm_num)]
    norm_num
  · norm_num [piD, binary64]
  · norm_num [piD, binary64]

/-- C2 fails as stated.  The inputs `phi1 = -π/2` and `phi2 = 2 ^ (-60)` are `Double_t`
values whose exact difference `-π/2 - 2 ^ (-60)` is below `-π/2`, yet the code returns
`-π/2`: the computed difference rounds to `-π/2`, so no guard fires.  The claim asks for
the difference plus `2π`, that is `3π/2 - 2 ^ (-60)`. -/
theorem ComputeDeltaPhi_rounds_difference :
    (binary64.round (-piD / 2) = FP.finite (-piD / 2) ∧
      binary64.round (1 / 2 ^ 60) = FP.finite (1 / 2 ^ 60)) ∧
    (-piD / 2 - 1 / 2 ^ 60 < -piD / 2 ∧
      -piD / 2 - 1 / 2 ^ 60 + 2 * piD = 3 * piD / 2 - 1 / 2 ^ 60) ∧
    ComputeDeltaPhi (FP.finite (-piD / 2)) (FP.finite (1 / 2 ^ 60)) = FP.finite (-piD / 2) ∧
    ¬ (ComputeDeltaPhi (FP.finite (-piD / 2)) (FP.finite (1 / 2 ^ 60)) =
        FP.finite (3 * piD / 2 - 1 / 2 ^ 60)) := by
  have hd := sub_lowEdge_tiny
  have a : FP.lt (FP.sub binary64 (FP.finite (-piD / 2)) (FP.finite (1 / 2 ^ 60)))
      (FP.finite (-piD / 2)) = false := by
    rw [hd]
    simp [FP.lt]
  have b : FP.gt (FP.sub binary64 (FP.finite (-piD / 2)) (FP.finite (1 / 2 ^ 60)))
      (FP.finite (3 * piD / 2)) = false := by
    rw [hd]
    simp only [FP.gt, FP.lt, decide_eq_false_iff_not, not_lt]
    norm_num [piD]
  have hv : ComputeDeltaPhi (FP.finite (-piD / 2)) (FP.finite (1 / 2 ^ 60)) =
      FP.finite (-piD / 2) := by
    rw [ComputeDeltaPhi_of_mid _ _ a b, hd]
  refine ⟨⟨round_lowEdge, round_tiny⟩, ⟨by norm_num, by ring⟩, hv, ?_⟩
  rw [hv]
  intro h
  injection h with h
  norm_num [piD] at h

/-- A `Double_t` result of magnitude below 8 is within `2 ^ (-51)` of the exact one. -/
theorem abs_round_sub_le {x r : ℚ} (h : binary64.round x = FP.finite r) (hx : |x| < 8) :
    |r - x| ≤ 1 / 2 ^ 51 := by
  obtain ⟨e, _, _⟩ := binary64.roundRaw_of_round_eq h
  have := binary64.abs_roundRaw_sub_le (x := x) 2 (by norm_num [binary64])
    (by norm_num; exact hx)
  rw [e] at this
  norm_num [binary64] at this
  norm_num
  exact this

/-- C10 (as amended): for `phi1` and `phi2` in `[0, 2π]` the result is finite, lies in the
closed interval `[-π/2, 3π/2]`, and differs from the exact `phi1 - phi2` by `-2π`, `0` or
`2π` up to a rounding error of at most `2 ^ (-50)`. -/
theorem ComputeDeltaPhi_mem_Icc (a b : ℚ) (ha : 0 ≤ a) (ha' : a ≤ 2 * piD)
    (hb : 0 ≤ b) (hb' : b ≤ 2 * piD) :
    ∃ r : ℚ, ComputeDeltaPhi (FP.finite a) (FP.finite b) = FP.finite r ∧
      (-piD / 2 ≤ r ∧ r ≤ 3 * piD / 2) ∧
      (|r - (a - b) + 2 * piD| ≤ 1 / 2 ^ 50 ∨ |r - (a - b)| ≤ 1 / 2 ^ 50 ∨
        |r - (a - b) - 2 * piD| ≤ 1 / 2 ^ 50) := by
  have hpi : (3 : ℚ) < piD := by norm_num [piD]
  have hpi' : piD < 4 := by norm_num [piD]
  obtain ⟨q, hq, hq1, hq2⟩ := binary64.round_mem_Icc (a - b) (-(2 * piD))
    (2 * piD) (by linarith) (by linarith) round_neg_twoPi round_twoPi
  have hd : FP.sub binary64 (FP.finite a) (FP.finite b) = FP.finite q := hq
  have e1 : |q - (a - b)| ≤ 1 / 2 ^ 51 :=
    abs_round_sub_le hq (by rw [abs_lt]; constructor <;> linarith)
  rw [abs_le] at e1
  obtain ⟨hmid, hlow, hhigh⟩ := ComputeDeltaPhi_of_finite _ _ q hd
  by_cases c1 : q < -piD / 2
  · obtain ⟨r, hr, hr1, hr2⟩ := binary64.round_mem_Icc (q + 2 * piD) 0
      (3 * piD / 2) (by linarith) (by linarith) binary64.round_zero round_highEdge
    have e2 : |r - (q + 2 * piD)| ≤ 1 / 2 ^ 51 :=
      abs_round_sub_le hr (by rw [abs_lt]; constructor <;> linarith)
    rw [abs_le] at e2
    refine ⟨r, by rw [hlow c1, hr], ⟨by linarith, hr2⟩, Or.inr (Or.inr ?_)⟩
    rw [abs_le]
    constructor <;> norm_num at e1 e2 ⊢ <;> linarith
  · by_cases c2 : 3 * piD / 2 < q
    · obtain ⟨r, hr, hr1, hr2⟩ := binary64.round_mem_Icc (q - 2 * piD)
        (-piD / 2) 0 (by linarith) (by linarith) round_lowEdge
        binary64.round_zero
      have e2 : |r - (q - 2 * piD)| ≤ 1 / 2 ^ 51 :=
        abs_round_sub_le hr (by rw [abs_lt]; constructor <;> linarith)
      rw [abs_le] at e2
      refine ⟨r, by rw [hhigh c2, hr], ⟨hr1, by linarith⟩, Or.inl ?_⟩
      rw [abs_le]
      constructor <;> norm_num at e1 e2 ⊢ <;> linarith
    · refine ⟨q, hmid (not_lt.mp c1) (not_lt.mp c2), ⟨not_lt.mp c1, not_lt.mp c2⟩,
        Or.inr (Or.inl ?_)⟩
      rw [abs_le]
      constructor <;> norm_num at e1 ⊢ <;> linarith

/-- Witness of C10 (as amended) at `phi1 = 0`, `phi2 = 2`. -/
theorem ComputeDeltaPhi_mem_Icc_witness :
    ((0 : ℚ) ≤ 0 ∧ (0 : ℚ) ≤ 2 * piD ∧ (0 : ℚ) ≤ 2 ∧ (2 : ℚ) ≤ 2 * piD) ∧
    ∃ r : ℚ, ComputeDeltaPhi (FP.finite 0) (FP.finite 2) = FP.finite r ∧
      (-piD / 2 ≤ r ∧ r ≤ 3 * piD / 2) ∧
      (|r - (0 - 2) + 2 * piD| ≤ 1 / 2 ^ 50 ∨ |r - (0 - 2)| ≤ 1 / 2 ^ 50 ∨
        |r - (0 - 2) - 2 * piD| ≤ 1 / 2 ^ 50) :=
  ⟨⟨le_rfl, by norm_num [piD], by norm_num, by norm_num [piD]⟩,
    ComputeDeltaPhi_mem_Icc 0 2 le_rfl (by norm_num [piD]) (by norm_num)
      (by norm_num [piD])⟩

/-- The `Double_t` nearest to `0.1` is a `Double_t`. -/
theorem round_tenth :
    binary64.round (3602879701896397 / 36028797018963968) =
      FP.finite (3602879701896397 / 36028797018963968) := by
  apply binary64.round_eq_of_pos (-4) 7205759403792794
  · norm_num
  · norm_num [binary64]
  · norm_num
  · norm_num
  · apply roundHalfEven_eq_of_close
    norm_num [binary64]
  · norm_num [binary64]
  · norm_num [binary64]

/-- The value `2` is a `Double_t`. -/
theorem round_two : binary64.round 2 = FP.finite 2 := by
  apply binary64.round_eq_of_pos 1 4503599627370496
  · norm_num
  · norm_num [binary64]
  · norm_num
  · norm_num
  · apply roundHalfEven_eq_of_close
    norm_num [binary64]
  · norm_num [binary64]
  · norm_num [binary64]

/-- The `Double_t` difference of `0.1` and `2`. -/
theorem sub_tenth_two :
    FP.sub binary64 (FP.finite (3602879701896397 / 36028797018963968)) (FP.finite 2) =
      FP.finite (-4278419646001971 / 2251799813685248) := by
  simp only [FP.sub]
  apply binary64.round_eq_of_neg 0 8556839292003942
  · norm_num
  · norm_num [binary64]
  · norm_num
  · norm_num
  · apply roundHalfEven_eq_of_close
    norm_num [binary64]
    rw [abs_of_pos (by norm_num)]
    norm_num
  · norm_num [binary64]
  · norm_num [binary64]

/-- The `Double_t` sum of that difference and `2π`: a tie, rounded to the even neighbour. -/
theorem add_tenth_two_twoPi :
    FP.add binary64 (FP.finite (-4278419646001971 / 2251799813685248))
        (FP.finite (2 * piD)) =
      FP.finite (2467513964513727 / 562949953421312) := by
  simp only [FP.add]
  apply binary64.round_eq_of_pos 2 4935027929027454
  · norm_num [piD]
  · norm_num [binary64]
  · norm_num [piD]
  · norm_num [piD]
  · apply roundHalfEven_eq_of_tie
    · norm_num [piD, binary64]
    · decide
  · norm_num [binary64]
  · norm_num [binary64]

/-- C10 fails as stated.  The inputs `0.1` (as a `Double_t`) and `2` are `Double_t` values
in `[0, 2π]`.  The code returns `2467513964513727 / 2 ^ 49`, and this minus the exact
`phi1 - phi2` is none of `-2π`, `0`, `2π`: it misses `2π` by `13 / 2 ^ 55`. -/
theorem ComputeDeltaPhi_not_exact :
    (binary64.round (3602879701896397 / 36028797018963968) =
        FP.finite (3602879701896397 / 36028797018963968) ∧
      binary64.round 2 = FP.finite 2) ∧
    ((0 : ℚ) ≤ 3602879701896397 / 36028797018963968 ∧
      (3602879701896397 / 36028797018963968 : ℚ) ≤ 2 * piD ∧
      (0 : ℚ) ≤ 2 ∧ (2 : ℚ) ≤ 2 * piD) ∧
    ComputeDeltaPhi (FP.finite (3602879701896397 / 36028797018963968)) (FP.finite 2) =
      FP.finite (2467513964513727 / 562949953421312) ∧
    (2467513964513727 / 562949953421312 - (3602879701896397 / 36028797018963968 - 2) : ℚ) ≠
      -(2 * piD) ∧
    (2467513964513727 / 562949953421312 - (3602879701896397 / 36028797018963968 - 2) : ℚ) ≠
      0 ∧
    (2467513964513727 / 562949953421312 - (3602879701896397 / 36028797018963968 - 2) : ℚ) ≠
      2 * piD ∧
    (2 * piD -
        (2467513964513727 / 562949953421312 - (3602879701896397 / 36028797018963968 - 2)) : ℚ) =
      13 / 2 ^ 55 := by
  have hd := sub_tenth_two
  have a : FP.lt (FP.sub binary64 (FP.finite (3602879701896397 / 36028797018963968))
      (FP.finite 2)) (FP.finite (-piD / 2)) = true := by
    rw [hd]
    simp only [FP.lt, decide_eq_true_eq]
    norm_num [piD]
  have hv : ComputeDeltaPhi (FP.finite (3602879701896397 / 36028797018963968))
      (FP.finite 2) = FP.finite (2467513964513727 / 562949953421312) := by
    rw [ComputeDeltaPhi_of_lt _ _ a, hd]
    exact add_tenth_two_twoPi
  refine ⟨⟨round_tenth, round_two⟩, ⟨by norm_num, by norm_num [piD], by norm_num,
    by norm_num [piD]⟩, hv, by norm_num [piD], by norm_num, by norm_num [piD],
    by norm_num [piD]⟩

/-! ## `process`: the pair loop -/

/-- The associated-band loop leaves both correlation histograms alone. -/
theorem foldl_hPtAs_correlation (l : List DrTrack) (histos : Histos) :
    (l.foldl (fun histos track => { histos with hPtAs := histos.hPtAs ++ [track.pt] })
        histos).correlationFunction = histos.correlationFunction ∧
    (l.foldl (fun histos track => { histos with hPtAs := histos.hPtAs ++ [track.pt] })
        histos).correlationFunction2d = histos.correlationFunction2d := by
  induction l generalizing histos with
  | nil => simp
  | cons t ts ih =>
    rw [List.foldl_cons]
    exact ⟨(ih _).1, (ih _).2⟩

/-- The trigger-band loop leaves both correlation histograms alone. -/
theorem foldl_hPtTr_correlation (l : List DrTrack) (histos : Histos) :
    (l.foldl (fun histos track => { histos with hPtTr := histos.hPtTr ++ [track.pt] })
        histos).correlationFunction = histos.correlationFunction ∧
    (l.foldl (fun histos track => { histos with hPtTr := histos.hPtTr ++ [track.pt] })
        histos).correlationFunction2d = histos.correlationFunction2d := by
  induction l generalizing histos with
  | nil => simp
  | cons t ts ih =>
    rw [List.foldl_cons]
    exact ⟨(ih _).1, (ih _).2⟩

/-- The pair loop appends one delta-phi value per pair to `correlationFunction`. -/
theorem foldl_processPair_correlationFunction (pairs : List (DrTrack × DrTrack))
    (histos : Histos) :
    (pairs.foldl processPair histos).correlationFunction =
      histos.correlationFunction ++
        pairs.map (fun p => ComputeDeltaPhi p.1.phi p.2.phi) := by
  induction pairs generalizing histos with
  | nil => simp
  | cons p ps ih =>
    rw [List.foldl_cons, ih]
    simp [processPair]

/-- The pair loop appends one (delta-phi, delta-eta) point per pair to
`correlationFunction2d`. -/
theorem foldl_processPair_correlationFunction2d (pairs : List (DrTrack × DrTrack))
    (histos : Histos) :
    (pairs.foldl processPair histos).correlationFunction2d =
      histos.correlationFunction2d ++
        pairs.map (fun p =>
          (ComputeDeltaPhi p.1.phi p.2.phi, FP.sub binary32 p.1.eta p.2.eta)) := by
  induction pairs generalizing histos with
  | nil => simp
  | cons p ps ih =>
    rw [List.foldl_cons, ih]
    simp [processPair]

/-- The trigger band of a collision, read off the table: the rows of the collision with
`pt > 6.0`. -/
theorem sliceByCached_triggerTracks (drTracks : List DrTrack) (id : Int) :
    sliceByCached (triggerTracks drTracks) id =
      drTracks.filter
        (fun t => decide (t.drCollisionId = id) && FP.gt t.pt (FP.finite 6)) := by
  unfold sliceByCached triggerTracks
  rw [List.filter_filter]

/-- The associated band of a collision, read off the table: the rows of the collision with
`4.0 < pt < 6.0`. -/
theorem sliceByCached_associatedTracks (drTracks : List DrTrack) (id : Int) :
    sliceByCached (associatedTracks drTracks) id =
      drTracks.filter
        (fun t => decide (t.drCollisionId = id) &&
          (FP.gt t.pt (FP.finite 4) && FP.lt t.pt (FP.finite 6))) := by
  unfold sliceByCached associatedTracks
  rw [List.filter_filter]
  congr 1
  funext t
  rw [Bool.and_comm (FP.lt t.pt (FP.finite 6))]

/-- C4: let the trigger band be the rows of the track table that belong to the collision
and have `pt > 6.0`, and the associated band those that belong to the collision and have
`4.0 < pt < 6.0`, with `T` and `A` their numbers of rows.  `process` appends to
`correlationFunction` and to `correlationFunction2d`, after the earlier fills, exactly one
fill per (trigger, associated) pair of the cross product of the two bands, so each
histogram gains exactly `T * A` fills, and both are unchanged when `T = 0` or `A = 0`. -/
theorem process_correlation_fills (drTracks : List DrTrack) (histos : Histos)
    (collision : DrCollision) (tracks : List DrTrack) :
    (process drTracks histos collision tracks).correlationFunction =
      histos.correlationFunction ++
        (drTracks.filter (fun t =>
            decide (t.drCollisionId = collision.globalIndex) &&
              FP.gt t.pt (FP.finite 6))).flatMap
          (fun trigger =>
            (drTracks.filter (fun t =>
                decide (t.drCollisionId = collision.globalIndex) &&
                  (FP.gt t.pt (FP.finite 4) && FP.lt t.pt (FP.finite 6)))).map
              (fun associated => ComputeDeltaPhi trigger.phi associated.phi)) ∧
    (process drTracks histos collision tracks).correlationFunction2d =
      histos.correlationFunction2d ++
        (drTracks.filter (fun t =>
            decide (t.drCollisionId = collision.globalIndex) &&
              FP.gt t.pt (FP.finite 6))).flatMap
          (fun trigger =>
            (drTracks.filter (fun t =>
                decide (t.drCollisionId = collision.globalIndex) &&
                  (FP.gt t.pt (FP.finite 4) && FP.lt t.pt (FP.finite 6)))).map
              (fun associated =>
                (ComputeDeltaPhi trigger.phi associated.phi,
                  FP.sub binary32 trigger.eta associated.eta))) ∧
    (process drTracks histos collision tracks).correlationFunction.length =
      histos.correlationFunction.length +
        drTracks.countP (fun t =>
            decide (t.drCollisionId = collision.globalIndex) && FP.gt t.pt (FP.finite 6)) *
          drTracks.countP (fun t =>
            decide (t.drCollisionId = collision.globalIndex) &&
              (FP.gt t.pt (FP.finite 4) && FP.lt t.pt (FP.finite 6))) ∧
    (process drTracks histos collision tracks).correlationFunction2d.length =
      histos.correlationFunction2d.length +
        drTracks.countP (fun t =>
            decide (t.drCollisionId = collision.globalIndex) && FP.gt t.pt (FP.finite 6)) *
          drTracks.countP (fun t =>
            decide (t.drCollisionId = collision.globalIndex) &&
              (FP.gt t.pt (FP.finite 4) && FP.lt t.pt (FP.finite 6))) ∧
    (drTracks.countP (fun t =>
          decide (t.drCollisionId = collision.globalIndex) && FP.gt t.pt (FP.finite 6)) = 0 ∨
        drTracks.countP (fun t =>
          decide (t.drCollisionId = collision.globalIndex) &&
            (FP.gt t.pt (FP.finite 4) && FP.lt t.pt (FP.finite 6))) = 0 →
      (process drTracks histos collision tracks).correlationFunction =
          histos.correlationFunction ∧
        (process drTracks histos collision tracks).correlationFunction2d =
          histos.correlationFunction2d) := by
  have e1 : (process drTracks histos collision tracks).correlationFunction =
      histos.correlationFunction ++
        (List.product (sliceByCached (triggerTracks drTracks) collision.globalIndex)
          (sliceByCached (associatedTracks drTracks) collision.globalIndex)).map
          (fun p => ComputeDeltaPhi p.1.phi p.2.phi) := by
    unfold process combinations
    simp only []
    rw [foldl_processPair_correlationFunction, (foldl_hPtTr_correlation _ _).1,
      (foldl_hPtAs_correlation _ _).1]
  have e2 : (process drTracks histos collision tracks).correlationFunction2d =
      histos.correlationFunction2d ++
        (List.product (sliceByCached (triggerTracks drTracks) collision.globalIndex)
          (sliceByCached (associatedTracks drTracks) collision.globalIndex)).map
          (fun p => (ComputeDeltaPhi p.1.phi p.2.phi, FP.sub binary32 p.1.eta p.2.eta)) := by
    unfold process combinations
    simp only []
    rw [foldl_processPair_correlationFunction2d, (foldl_hPtTr_correlation _ _).2,
      (foldl_hPtAs_correlation _ _).2]
  have hlen : ∀ a b : List DrTrack, (List.product a b).length = a.length * b.length :=
    fun a b => List.length_product a b
  rw [sliceByCached_triggerTracks, sliceByCached_associatedTracks] at e1 e2
  simp only [List.countP_eq_length_filter]
  refine ⟨?_, ?_, ?_, ?_, ?_⟩
  · rw [e1]
    simp [List.product, List.map_flatMap, List.map_map, Function.comp_def]
  · rw [e2]
    simp [List.product, List.map_flatMap, List.map_map, Function.comp_def]
  · rw [e1, List.length_append, List.length_map, hlen]
  · rw [e2, List.length_append, List.length_map, hlen]
  · intro h0
    have hnil : List.product
        (drTracks.filter (fun t =>
          decide (t.drCollisionId = collision.globalIndex) && FP.gt t.pt (FP.finite 6)))
        (drTracks.filter (fun t =>
          decide (t.drCollisionId = collision.globalIndex) &&
            (FP.gt t.pt (FP.finite 4) && FP.lt t.pt (FP.finite 6)))) = [] := by
      apply List.eq_nil_of_length_eq_zero
      rw [hlen]
      rcases h0 with h0 | h0 <;> simp [h0]
    rw [e1, e2, hnil]
    simp

end DerivedBasicConsumer

/-! ## `processReco`: the track loop -/

namespace myExampleTask

variable {α : Type} [LinearOrderedField α]

/-- A track rejected by either cut leaves the registry unchanged. -/
theorem processRecoTrack_of_fails (histos : Histos α) (track : Track α)
    (hf : failsQualityCuts track = true) : processRecoTrack histos track = histos := by
  unfold processRecoTrack
  simp only [failsQualityCuts, Bool.or_eq_true, decide_eq_true_eq] at hf
  rcases hf with hf | hf
  · rw [if_pos hf]
  · by_cases h1 : track.tpcNClsCrossedRows < 70
    · rw [if_pos h1]
    · rw [if_neg h1, if_pos hf]

/-- The two guards of a track that passes the cuts are false. -/
theorem not_guards_of_passes (track : Track α) (hf : failsQualityCuts track = false) :
    ¬ track.tpcNClsCrossedRows < 70 ∧ ¬ |track.dcaXY| > 0.2 := by
  simp only [failsQualityCuts, Bool.or_eq_false_iff, decide_eq_false_iff_not] at hf
  exact hf

/-- A passing track without truth link fills eta and pt only. -/
theorem processRecoTrack_of_unlinked (histos : Histos α) (track : Track α)
    (hf : failsQualityCuts track = false) (hl : track.mcParticle = none) :
    processRecoTrack histos track =
      { histos with
        eta1Histogram := histos.eta1Histogram ++ [track.eta]
        ptHistogram := histos.ptHistogram ++ [track.pt] } := by
  obtain ⟨h1, h2⟩ := not_guards_of_passes track hf
  unfold processRecoTrack
  rw [if_neg h1, if_neg h2]
  simp only [hl]

/-- A passing track with a truth link fills eta, pt and the resolution, and then the
species histograms under the three independent species guards. -/
theorem processRecoTrack_of_linked (histos : Histos α) (track : Track α)
    (mcParticle : McParticle α)
    (hf : failsQualityCuts track = false) (hl : track.mcParticle = some mcParticle) :
    processRecoTrack histos track =
      { histos with
        eta1Histogram := histos.eta1Histogram ++ [track.eta]
        ptHistogram := histos.ptHistogram ++ [track.pt]
        ptResolution := histos.ptResolution ++ [(track.pt, track.pt - mcParticle.pt)]
        ptHistogramPion := histos.ptHistogramPion ++
          (if selectsSpecies 211 mcParticle = true then [mcParticle.pt] else [])
        ptHistogramKaon := histos.ptHistogramKaon ++
          (if selectsSpecies 321 mcParticle = true then [mcParticle.pt] else [])
        ptHistogramProton := histos.ptHistogramProton ++
          (if selectsSpecies 2212 mcParticle = true then [mcParticle.pt] else []) } := by
  obtain ⟨h1, h2⟩ := not_guards_of_passes track hf
  unfold processRecoTrack
  rw [if_neg h1, if_neg h2]
  simp only [hl, selectsSpecies, Bool.and_eq_true, decide_eq_true_eq]
  by_cases hp : mcParticle.isPhysicalPrimary = true ∧ |mcParticle.y| < 0.5
  · rw [if_pos hp]
    by_cases a : |mcParticle.pdgCode| = 211 <;> by_cases b : |mcParticle.pdgCode| = 321 <;>
      by_cases c : |mcParticle.pdgCode| = 2212 <;> simp [hp, a, b, c]
  · rw [if_neg hp]
    simp [hp]

/-- The whole track loop: every histogram after the loop, as its log before the loop
followed by the fills of the passing tracks in table order. -/
theorem foldl_processRecoTrack (tracks : List (Track α)) (histos : Histos α) :
    tracks.foldl processRecoTrack histos =
      { histos with
        eta1Histogram := histos.eta1Histogram ++ (passingTracks tracks).map (fun t => t.eta)
        ptHistogram := histos.ptHistogram ++ (passingTracks tracks).map (fun t => t.pt)
        ptResolution := histos.ptResolution ++
          (passingTracks tracks).filterMap
            (fun t => t.mcParticle.map (fun p => (t.pt, t.pt - p.pt)))
        ptHistogramPion := histos.ptHistogramPion ++
          ((linkedParticles tracks).filter (selectsSpecies 211)).map (fun p => p.pt)
        ptHistogramKaon := histos.ptHistogramKaon ++
          ((linkedParticles tracks).filter (selectsSpecies 321)).map (fun p => p.pt)
        ptHistogramProton := histos.ptHistogramProton ++
          ((linkedParticles tracks).filter (selectsSpecies 2212)).map (fun p => p.pt) } := by
  induction tracks generalizing histos with
  | nil => simp [passingTracks, linkedParticles]
  | cons t ts ih =>
    rw [List.foldl_cons, ih]
    cases hf : failsQualityCuts t with
    | true =>
      rw [processRecoTrack_of_fails histos t hf]
      simp [passingTracks, linkedParticles, hf]
    | false =>
      cases hl : t.mcParticle with
      | none =>
        rw [processRecoTrack_of_unlinked histos t hf hl]
        simp [passingTracks, linkedParticles, hf, hl]
      | some p =>
        rw [processRecoTrack_of_linked histos t p hf hl]
        by_cases a : selectsSpecies 211 p = true <;>
          by_cases b : selectsSpecies 321 p = true <;>
          by_cases c : selectsSpecies 2212 p = true <;>
          simp [passingTracks, linkedParticles, hf, hl, a, b, c]

/-- C3: tracks with fewer than 70 crossed rows or `|dcaXY| > 0.2` contribute nothing:
the registry after `processReco` on a track list equals the registry after `processReco`
on the same list with all such tracks removed. -/
theorem processReco_filter_failing (histos : Histos α) (collision : Collision)
    (tracks : List (Track α)) :
    processReco histos collision tracks =
      processReco histos collision (tracks.filter (fun t => !failsQualityCuts t)) := by
  unfold processReco
  simp only [foldl_processRecoTrack]
  have e1 : passingTracks (tracks.filter (fun t => !failsQualityCuts t)) =
      passingTracks tracks := by
    simp [passingTracks, List.filter_filter]
  have e2 : linkedParticles (tracks.filter (fun t => !failsQualityCuts t)) =
      linkedParticles tracks := by
    unfold linkedParticles
    rw [e1]
  rw [e1, e2]

/-- C8: `processReco` on two track lists that are permutations of each other leaves the
same multiset of fills in every histogram. -/
theorem processReco_perm (histos : Histos α) (collision : Collision)
    (tracks₁ tracks₂ : List (Track α)) (hperm : tracks₁.Perm tracks₂) :
    (processReco histos collision tracks₁).sameContents
      (processReco histos collision tracks₂) := by
  have hp : (passingTracks tracks₁).Perm (passingTracks tracks₂) := hperm.filter _
  have hl : (linkedParticles tracks₁).Perm (linkedParticles tracks₂) := hp.filterMap _
  unfold processReco Histos.sameContents
  simp only [foldl_processRecoTrack]
  exact ⟨List.Perm.refl _, (hp.map _).append_left _, (hp.map _).append_left _,
    (hp.filterMap _).append_left _, ((hl.filter _).map _).append_left _,
    ((hl.filter _).map _).append_left _, ((hl.filter _).map _).append_left _,
    List.Perm.refl _, List.Perm.refl _, List.Perm.refl _, List.Perm.refl _⟩

/-- Witness of C8: the unlinked and the pion scenario tracks in either order. -/
theorem processReco_perm_witness :
    [scenarioTrackUnlinked, scenarioTrackPion].Perm [scenarioTrackPion, scenarioTrackUnlinked] ∧
    (processReco init ⟨0⟩ [scenarioTrackUnlinked, scenarioTrackPion]).sameContents
      (processReco init ⟨0⟩ [scenarioTrackPion, scenarioTrackUnlinked]) :=
  ⟨List.Perm.swap _ _ _,
    processReco_perm init ⟨0⟩ _ _ (List.Perm.swap _ _ _)⟩

/-- C7 (as amended): for a collision whose three tracks, in any order, are one failing the
crossed-rows cut, one passing the cuts without truth link and one passing the cuts with a
truth link to a physical-primary pion at rapidity 0.1, `processReco` adds one entry to the
event counter, two entries to the eta histogram and two to the pt histogram (the eta and
pt of the two passing tracks), one entry to the resolution histogram, one entry (the truth
pt) to the pion histogram, and nothing to the kaon and proton histograms. -/
theorem processReco_scenario (histos : Histos α) (collision : Collision)
    (t₁ t₂ t₃ : Track α) (p : McParticle α) (tracks : List (Track α))
    (h₁ : t₁.tpcNClsCrossedRows < 70)
    (h₂ : failsQualityCuts t₂ = false) (hl₂ : t₂.mcParticle = none)
    (h₃ : failsQualityCuts t₃ = false) (hl₃ : t₃.mcParticle = some p)
    (hprim : p.isPhysicalPrimary = true) (hy : p.y = 0.1) (hpdg : |p.pdgCode| = 211)
    (hperm : tracks.Perm [t₁, t₂, t₃]) :
    (processReco histos collision tracks).eventCounterHistogram =
      histos.eventCounterHistogram ++ [0.5] ∧
    ((processReco histos collision tracks).eta1Histogram.length =
        histos.eta1Histogram.length + 2 ∧
      (processReco histos collision tracks).eta1Histogram.Perm
        (histos.eta1Histogram ++ [t₂.eta, t₃.eta])) ∧
    ((processReco histos collision tracks).ptHistogram.length =
        histos.ptHistogram.length + 2 ∧
      (processReco histos collision tracks).ptHistogram.Perm
        (histos.ptHistogram ++ [t₂.pt, t₃.pt])) ∧
    (processReco histos collision tracks).ptResolution =
      histos.ptResolution ++ [(t₃.pt, t₃.pt - p.pt)] ∧
    (processReco histos collision tracks).ptHistogramPion =
      histos.ptHistogramPion ++ [p.pt] ∧
    (processReco histos collision tracks).ptHistogramKaon = histos.ptHistogramKaon ∧
    (processReco histos collision tracks).ptHistogramProton = histos.ptHistogramProton := by
  have hf₁ : failsQualityCuts t₁ = true := by
    simp [failsQualityCuts, h₁]
  have hy' : |p.y| < 0.5 := by
    rw [hy, abs_of_pos (by norm_num)]
    norm_num
  have s1 : selectsSpecies 211 p = true := by
    simp [selectsSpecies, hprim, hy', hpdg]
  have s2 : selectsSpecies 321 p = false := by
    simp [selectsSpecies, hpdg]
  have s3 : selectsSpecies 2212 p = false := by
    simp [selectsSpecies, hpdg]
  have hp : (passingTracks tracks).Perm [t₂, t₃] := by
    have := hperm.filter (fun t => !failsQualityCuts t)
    simpa [passingTracks, hf₁, h₂, h₃] using this
  have hl : linkedParticles tracks = [p] := by
    have := hp.filterMap (fun t => t.mcParticle)
    simpa [linkedParticles, hl₂, hl₃] using this
  have hr : (passingTracks tracks).filterMap
      (fun t => t.mcParticle.map (fun q => (t.pt, t.pt - q.pt))) = [(t₃.pt, t₃.pt - p.pt)] := by
    have := hp.filterMap (fun t => t.mcParticle.map (fun q => (t.pt, t.pt - q.pt)))
    simpa [hl₂, hl₃] using this
  have hlen : (passingTracks tracks).length = 2 := by
    simpa using hp.length_eq
  refine ⟨?_, ⟨?_, ?_⟩, ⟨?_, ?_⟩, ?_, ?_, ?_, ?_⟩
  · simp only [processReco, foldl_processRecoTrack]
  · simp [processReco, foldl_processRecoTrack, hlen]
  · simp only [processReco, foldl_processRecoTrack]
    exact (hp.map (fun t => t.eta)).append_left _
  · simp [processReco, foldl_processRecoTrack, hlen]
  · simp only [processReco, foldl_processRecoTrack]
    exact (hp.map (fun t => t.pt)).append_left _
  · simp only [processReco, foldl_processRecoTrack, hr]
  · simp [processReco, foldl_processRecoTrack, hl, s1]
  · simp [processReco, foldl_processRecoTrack, hl, s2]
  · simp [processReco, foldl_processRecoTrack, hl, s3]

/-- The failing scenario track is rejected by the crossed-rows cut. -/
theorem scenarioTrackFailing_rows : scenarioTrackFailing.tpcNClsCrossedRows < 70 := by
  decide

/-- The unlinked scenario track passes both cuts. -/
theorem scenarioTrackUnlinked_passes : failsQualityCuts scenarioTrackUnlinked = false := by
  simp only [failsQualityCuts, scenarioTrackUnlinked, Bool.or_eq_false_iff,
    decide_eq_false_iff_not]
  refine ⟨by decide, ?_⟩
  rw [abs_of_pos (by norm_num)]
  norm_num

/-- The pion scenario track passes both cuts. -/
theorem scenarioTrackPion_passes : failsQualityCuts scenarioTrackPion = false := by
  simp only [failsQualityCuts, scenarioTrackPion, Bool.or_eq_false_iff,
    decide_eq_false_iff_not]
  refine ⟨by decide, ?_⟩
  rw [abs_of_neg (by norm_num)]
  norm_num

/-- Witness of C7 (as amended): the scenario tracks on the freshly booked registry. -/
theorem processReco_scenario_witness :
    (scenarioTrackFailing.tpcNClsCrossedRows < 70 ∧
      failsQualityCuts scenarioTrackUnlinked = false ∧
      scenarioTrackUnlinked.mcParticle = none ∧
      failsQualityCuts scenarioTrackPion = false ∧
      scenarioTrackPion.mcParticle = some scenarioPion ∧
      scenarioPion.isPhysicalPrimary = true ∧ scenarioPion.y = 0.1 ∧
      |scenarioPion.pdgCode| = 211) ∧
    ((processReco init ⟨0⟩
        [scenarioTrackFailing, scenarioTrackUnlinked, scenarioTrackPion]).eventCounterHistogram =
      (init : Histos ℚ).eventCounterHistogram ++ [0.5] ∧
    ((processReco init ⟨0⟩
          [scenarioTrackFailing, scenarioTrackUnlinked, scenarioTrackPion]).eta1Histogram.length =
        (init : Histos ℚ).eta1Histogram.length + 2 ∧
      (processReco init ⟨0⟩
          [scenarioTrackFailing, scenarioTrackUnlinked, scenarioTrackPion]).eta1Histogram.Perm
        ((init : Histos ℚ).eta1Histogram ++
          [scenarioTrackUnlinked.eta, scenarioTrackPion.eta])) ∧
    ((processReco init ⟨0⟩
          [scenarioTrackFailing, scenarioTrackUnlinked, scenarioTrackPion]).ptHistogram.length =
        (init : Histos ℚ).ptHistogram.length + 2 ∧
      (processReco init ⟨0⟩
          [scenarioTrackFailing, scenarioTrackUnlinked, scenarioTrackPion]).ptHistogram.Perm
        ((init : Histos ℚ).ptHistogram ++
          [scenarioTrackUnlinked.pt, scenarioTrackPion.pt])) ∧
    (processReco init ⟨0⟩
        [scenarioTrackFailing, scenarioTrackUnlinked, scenarioTrackPion]).ptResolution =
      (init : Histos ℚ).ptResolution ++
        [(scenarioTrackPion.pt, scenarioTrackPion.pt - scenarioPion.pt)] ∧
    (processReco init ⟨0⟩
        [scenarioTrackFailing, scenarioTrackUnlinked, scenarioTrackPion]).ptHistogramPion =
      (init : Histos ℚ).ptHistogramPion ++ [scenarioPion.pt] ∧
    (processReco init ⟨0⟩
        [scenarioTrackFailing, scenarioTrackUnlinked, scenarioTrackPion]).ptHistogramKaon =
      (init : Histos ℚ).ptHistogramKaon ∧
    (processReco init ⟨0⟩
        [scenarioTrackFailing, scenarioTrackUnlinked, scenarioTrackPion]).ptHistogramProton =
      (init : Histos ℚ).ptHistogramProton) :=
  ⟨⟨scenarioTrackFailing_rows, scenarioTrackUnlinked_passes, rfl, scenarioTrackPion_passes,
      rfl, rfl, by norm_num [scenarioPion], by decide⟩,
    processReco_scenario init ⟨0⟩ scenarioTrackFailing scenarioTrackUnlinked scenarioTrackPion
      scenarioPion _ scenarioTrackFailing_rows scenarioTrackUnlinked_passes rfl
      scenarioTrackPion_passes rfl rfl (by norm_num [scenarioPion]) (by decide)
      (List.Perm.refl _)⟩

/-- C7 fails as stated: on the freshly booked registry, with the three scenario tracks
(50 crossed rows; passing without truth link; passing and linked to a physical-primary
pion at rapidity 1/10), the eta histogram holds the two values `1/2` and `-1/5` and the pt
histogram the two values `2` and `7/4`: each was filled twice, not once. -/
theorem processReco_scenario_not_once :
    (processReco init ⟨0⟩
        [scenarioTrackFailing, scenarioTrackUnlinked, scenarioTrackPion]).eta1Histogram =
      [1 / 2, -1 / 5] ∧
    (processReco init ⟨0⟩
        [scenarioTrackFailing, scenarioTrackUnlinked, scenarioTrackPion]).ptHistogram =
      [2, 7 / 4] ∧
    ¬ ((processReco init ⟨0⟩
          [scenarioTrackFailing, scenarioTrackUnlinked, scenarioTrackPion]).eta1Histogram.length =
        (init : Histos ℚ).eta1Histogram.length + 1) ∧
    ¬ ((processReco init ⟨0⟩
          [scenarioTrackFailing, scenarioTrackUnlinked, scenarioTrackPion]).ptHistogram.length =
        (init : Histos ℚ).ptHistogram.length + 1) := by
  have hf : failsQualityCuts scenarioTrackFailing = true := by
    simp [failsQualityCuts, scenarioTrackFailing]
  have hp : passingTracks [scenarioTrackFailing, scenarioTrackUnlinked, scenarioTrackPion] =
      [scenarioTrackUnlinked, scenarioTrackPion] := by
    simp [passingTracks, List.filter_cons, hf, scenarioTrackUnlinked_passes,
      scenarioTrackPion_passes]
  simp only [processReco, foldl_processRecoTrack, hp]
  simp [init, scenarioTrackUnlinked, scenarioTrackPion]

/-! ## `processSim` and the species selection -/

/-- The species block of `processSim` for a selected particle: one fill, chosen by
`|pdgCode|` alone. -/
theorem processSimParticle_of_selected (histos : Histos α) (p : McParticle α)
    (hprim : p.isPhysicalPrimary = true) (hy : |p.y| < 0.5) :
    processSimParticle histos p =
      if |p.pdgCode| = 211 then
        { histos with ptGeneratedPion := histos.ptGeneratedPion ++ [p.pt] }
      else if |p.pdgCode| = 321 then
        { histos with ptGeneratedKaon := histos.ptGeneratedKaon ++ [p.pt] }
      else if |p.pdgCode| = 2212 then
        { histos with ptGeneratedProton := histos.ptGeneratedProton ++ [p.pt] }
      else histos := by
  unfold processSimParticle
  rw [if_pos ⟨hprim, hy⟩]
  by_cases a : |p.pdgCode| = 211
  · have b : ¬ |p.pdgCode| = 321 := by rw [a]; decide
    have c : ¬ |p.pdgCode| = 2212 := by rw [a]; decide
    simp [a]
  · by_cases b : |p.pdgCode| = 321
    · have c : ¬ |p.pdgCode| = 2212 := by rw [b]; decide
      simp [b]
    · by_cases c : |p.pdgCode| = 2212 <;> simp [a, b, c]

/-- The particle step does not read the sign of the PDG code. -/
theorem processSimParticle_neg (histos : Histos α) (p : McParticle α) :
    processSimParticle histos { p with pdgCode := -p.pdgCode } =
      processSimParticle histos p := by
  unfold processSimParticle
  simp only [abs_neg]

/-- The track step does not read the sign of the linked particle's PDG code. -/
theorem processRecoTrack_neg (histos : Histos α) (t : Track α) (p : McParticle α) :
    processRecoTrack histos { t with mcParticle := some { p with pdgCode := -p.pdgCode } } =
      processRecoTrack histos { t with mcParticle := some p } := by
  unfold processRecoTrack
  simp only [abs_neg]

/-- The particle loop never touches `numberOfRecoCollisions`. -/
theorem foldl_processSimParticle_numberOfRecoCollisions (mcParticles : List (McParticle α))
    (histos : Histos α) :
    (mcParticles.foldl processSimParticle histos).numberOfRecoCollisions =
      histos.numberOfRecoCollisions := by
  induction mcParticles generalizing histos with
  | nil => rfl
  | cons p ps ih =>
    rw [List.foldl_cons, ih]
    unfold processSimParticle
    split_ifs <;> rfl

/-- C5: for a truth particle `p` that is a physical primary with `|y| < 0.5`, processing
`p` as one more particle in `processSim` fills exactly one generated-pt histogram with
`p.pt`, pion for `|pdg| = 211`, kaon for `|pdg| = 321`, proton for `|pdg| = 2212`, and none
for any other code; processing one more track that passes the cuts and is linked to `p` in
`processReco` fills eta, pt and resolution and then exactly one reconstructed-pt histogram
with `p.pt` by the same rule; and replacing the code by its negation changes nothing in
either function. -/
theorem species_selection (histos : Histos α) (collision mcCollision : Collision)
    (collisions : List Collision) (mcParticles : List (McParticle α))
    (tracks : List (Track α)) (p : McParticle α)
    (hprim : p.isPhysicalPrimary = true) (hy : |p.y| < 0.5) :
    ((processSim histos mcCollision collisions (mcParticles ++ [p]) tracks).1 =
      if |p.pdgCode| = 211 then
        { (processSim histos mcCollision collisions mcParticles tracks).1 with
          ptGeneratedPion :=
            (processSim histos mcCollision collisions mcParticles tracks).1.ptGeneratedPion ++
              [p.pt] }
      else if |p.pdgCode| = 321 then
        { (processSim histos mcCollision collisions mcParticles tracks).1 with
          ptGeneratedKaon :=
            (processSim histos mcCollision collisions mcParticles tracks).1.ptGeneratedKaon ++
              [p.pt] }
      else if |p.pdgCode| = 2212 then
        { (processSim histos mcCollision collisions mcParticles tracks).1 with
          ptGeneratedProton :=
            (processSim histos mcCollision collisions mcParticles tracks).1.ptGeneratedProton ++
              [p.pt] }
      else (processSim histos mcCollision collisions mcParticles tracks).1) ∧
    (∀ t : Track α, failsQualityCuts t = false → t.mcParticle = some p →
      processReco histos collision (tracks ++ [t]) =
        if |p.pdgCode| = 211 then
          { processReco histos collision tracks with
            eta1Histogram := (processReco histos collision tracks).eta1Histogram ++ [t.eta]
            ptHistogram := (processReco histos collision tracks).ptHistogram ++ [t.pt]
            ptResolution :=
              (processReco histos collision tracks).ptResolution ++ [(t.pt, t.pt - p.pt)]
            ptHistogramPion :=
              (processReco histos collision tracks).ptHistogramPion ++ [p.pt] }
        else if |p.pdgCode| = 321 then
          { processReco histos collision tracks with
            eta1Histogram := (processReco histos collision tracks).eta1Histogram ++ [t.eta]
            ptHistogram := (processReco histos collision tracks).ptHistogram ++ [t.pt]
            ptResolution :=
              (processReco histos collision tracks).ptResolution ++ [(t.pt, t.pt - p.pt)]
            ptHistogramKaon :=
              (processReco histos collision tracks).ptHistogramKaon ++ [p.pt] }
        else if |p.pdgCode| = 2212 then
          { processReco histos collision tracks with
            eta1Histogram := (processReco histos collision tracks).eta1Histogram ++ [t.eta]
            ptHistogram := (processReco histos collision tracks).ptHistogram ++ [t.pt]
            ptResolution :=
              (processReco histos collision tracks).ptResolution ++ [(t.pt, t.pt - p.pt)]
            ptHistogramProton :=
              (processReco histos collision tracks).ptHistogramProton ++ [p.pt] }
        else
          { processReco histos collision tracks with
            eta1Histogram := (processReco histos collision tracks).eta1Histogram ++ [t.eta]
            ptHistogram := (processReco histos collision tracks).ptHistogram ++ [t.pt]
            ptResolution :=
              (processReco histos collision tracks).ptResolution ++ [(t.pt, t.pt - p.pt)] }) ∧
    (processSim histos mcCollision collisions
        (mcParticles ++ [{ p with pdgCode := -p.pdgCode }]) tracks).1 =
      (processSim histos mcCollision collisions (mcParticles ++ [p]) tracks).1 ∧
    (∀ t : Track α,
      processReco histos collision
          (tracks ++ [{ t with mcParticle := some { p with pdgCode := -p.pdgCode } }]) =
        processReco histos collision (tracks ++ [{ t with mcParticle := some p }])) := by
  refine ⟨?_, ?_, ?_, ?_⟩
  · simp only [processSim, List.foldl_append, List.foldl_cons, List.foldl_nil]
    exact processSimParticle_of_selected _ p hprim hy
  · intro t hf hl
    simp only [processReco, List.foldl_append, List.foldl_cons, List.foldl_nil]
    rw [processRecoTrack_of_linked _ t p hf hl]
    have hsel : ∀ code : Int, selectsSpecies code p = true ↔ |p.pdgCode| = code := by
      intro code
      simp [selectsSpecies, hprim, hy]
    by_cases a : |p.pdgCode| = 211
    · have b : ¬ |p.pdgCode| = 321 := by rw [a]; decide
      have c : ¬ |p.pdgCode| = 2212 := by rw [a]; decide
      simp [hsel, a]
    · by_cases b : |p.pdgCode| = 321
      · have c : ¬ |p.pdgCode| = 2212 := by rw [b]; decide
        simp [hsel, b]
      · by_cases c : |p.pdgCode| = 2212 <;> simp [hsel, a, b, c]
  · simp only [processSim, List.foldl_append, List.foldl_cons, List.foldl_nil]
    exact processSimParticle_neg _ p
  · intro t
    simp only [processReco, List.foldl_append, List.foldl_cons, List.foldl_nil]
    exact processRecoTrack_neg _ t p

/-- The scenario pion lies inside the rapidity window. -/
theorem scenarioPion_rapidity : |scenarioPion.y| < 0.5 := by
  simp only [scenarioPion]
  rw [abs_of_pos (by norm_num)]
  norm_num

/-- Witness of C5 at the scenario pion (code 211, `pt = 3/2`): `processSim` on the freshly
booked registry fills the generated-pion histogram with `3/2` and leaves the kaon and
proton histograms empty, the code `-211` selects the same registry, and `processReco` on
the pion scenario track fills the reconstructed-pion histogram with `3/2` only. -/
theorem species_selection_witness :
    (scenarioPion.isPhysicalPrimary = true ∧ |scenarioPion.y| < 0.5) ∧
    (processSim init ⟨0⟩ [] ([] ++ [scenarioPion]) []).1.ptGeneratedPion = [3 / 2] ∧
    (processSim init ⟨0⟩ [] ([] ++ [scenarioPion]) []).1.ptGeneratedKaon = [] ∧
    (processSim init ⟨0⟩ [] ([] ++ [scenarioPion]) []).1.ptGeneratedProton = [] ∧
    (processSim init ⟨0⟩ [] ([] ++ [{ scenarioPion with pdgCode := -scenarioPion.pdgCode }])
        []).1 =
      (processSim init ⟨0⟩ [] ([] ++ [scenarioPion]) []).1 ∧
    (processReco init ⟨0⟩ ([] ++ [scenarioTrackPion])).ptHistogramPion = [3 / 2] ∧
    (processReco init ⟨0⟩ ([] ++ [scenarioTrackPion])).ptHistogramKaon = [] ∧
    (processReco init ⟨0⟩ ([] ++ [scenarioTrackPion])).ptHistogramProton = [] := by
  have h := species_selection init ⟨0⟩ ⟨0⟩ [] [] [] scenarioPion rfl scenarioPion_rapidity
  have e : |scenarioPion.pdgCode| = 211 := by decide
  have h1 := h.1
  rw [if_pos e] at h1
  have h2 := h.2.1 scenarioTrackPion scenarioTrackPion_passes rfl
  rw [if_pos e] at h2
  refine ⟨⟨rfl, scenarioPion_rapidity⟩, ?_, ?_, ?_, h.2.2.1, ?_, ?_, ?_⟩
  rotate_left 3
  · rw [h2]
    simp [processReco, init, scenarioPion]
  · rw [h2]
    simp [processReco, init]
  · rw [h2]
    simp [processReco, init]
  · rw [h1]
    simp [processSim, init, scenarioPion]
  · rw [h1]
    simp [processSim, init]
  · rw [h1]
    simp [processSim, init]

/-- C6: `processSim` appends exactly one entry to `numberOfRecoCollisions`, the number of
matched reconstructed collisions, whatever the particles and tracks are; with no matched
collision the entry is still appended and is 0. -/
theorem processSim_numberOfRecoCollisions (histos : Histos α) (mcCollision : Collision)
    (collisions : List Collision) (mcParticles : List (McParticle α))
    (tracks : List (Track α)) :
    (processSim histos mcCollision collisions mcParticles tracks).1.numberOfRecoCollisions =
      histos.numberOfRecoCollisions ++ [collisions.length] ∧
    (processSim histos mcCollision [] mcParticles tracks).1.numberOfRecoCollisions =
      histos.numberOfRecoCollisions ++ [0] := by
  constructor
  · simp only [processSim]
    rw [foldl_processSimParticle_numberOfRecoCollisions]
  · simp only [processSim]
    rw [foldl_processSimParticle_numberOfRecoCollisions]
    rfl

end myExampleTask
